import Mathlib

/-!
# jwt-bch-api: the BCH library (`src/lib/bch.js`) and the credit ledger

A shallow embedding of the class `BCH` of `src/lib/bch.js`.  JavaScript values,
numbers and exceptions are modelled explicitly; the external `bch-js` library
is a record of functions the methods call; console output is the only state
the methods write, and it is threaded through every call.
-/

namespace JwtBchApi

/-! ## JavaScript numbers -/

/-- The numbers the modelled code computes with: `NaN`, the two infinities and
the finite numbers whose value is an integer.  `int 0` stands for both zeros,
which the modelled code cannot tell apart. -/
inductive JsNum where
  | nan
  | posInf
  | negInf
  | int (z : Int)
  deriving DecidableEq, Repr

/-- Number of binary digits of `n`, computed with fuel `f`. -/
def bitLenAux : Nat → Nat → Nat
  | 0, _ => 0
  | f + 1, n => if n = 0 then 0 else bitLenAux f (n / 2) + 1

/-- Number of binary digits of `n` (0 for 0). -/
def bitLen (n : Nat) : Nat := bitLenAux n n

/-- The natural number `m` rounded to 53 significant binary digits, ties to
even: the rounding binary64 arithmetic applies to an exact result `m` (or to
`m / 2 ^ d`, the result then being read over the same denominator). -/
def roundSig (m : Nat) : Nat :=
  let s := bitLen m - 53
  let q := m / 2 ^ s
  let r := m % 2 ^ s
  if 2 ^ s < 2 * r ∨ (2 * r = 2 ^ s ∧ q % 2 = 1) then (q + 1) * 2 ^ s else q * 2 ^ s

/-- Whether a rounded magnitude exceeds the largest finite binary64 number,
`(2^53 - 1) * 2^971`: a number with 53 significant binary digits does so exactly
when it has more than 1024 binary digits. -/
def overflows (m : Nat) : Bool := decide (1024 < bitLen m)

/-- The binary64 number nearest to the natural number `n` (round to nearest,
ties to even; overflow gives `Infinity`). -/
def ofNat (n : Nat) : JsNum :=
  if overflows (roundSig n) then .posInf else .int (roundSig n)

/-- The binary64 number nearest to the integer `z`. -/
def ofInt (z : Int) : JsNum :=
  if 0 ≤ z then ofNat z.toNat
  else if overflows (roundSig z.natAbs) then .negInf else .int (-(roundSig z.natAbs : Int))

/-- JavaScript `a + b` on numbers. -/
def jsAdd : JsNum → JsNum → JsNum
  | .nan, _ => .nan
  | _, .nan => .nan
  | .posInf, .negInf => .nan
  | .negInf, .posInf => .nan
  | .posInf, _ => .posInf
  | _, .posInf => .posInf
  | .negInf, _ => .negInf
  | _, .negInf => .negInf
  | .int a, .int b => ofInt (a + b)

/-- JavaScript unary minus on numbers. -/
def jsNeg : JsNum → JsNum
  | .nan => .nan
  | .posInf => .negInf
  | .negInf => .posInf
  | .int a => .int (-a)

/-- JavaScript `a - b` on numbers. -/
def jsSub (a b : JsNum) : JsNum := jsAdd a (jsNeg b)

/-- JavaScript `a < b` on numbers (false when either side is `NaN`). -/
def jsLt : JsNum → JsNum → Bool
  | .nan, _ => false
  | _, .nan => false
  | .posInf, _ => false
  | _, .negInf => false
  | .negInf, _ => true
  | _, .posInf => true
  | .int a, .int b => decide (a < b)

/-- Whether a number is a Satoshi value as the transaction builder of `bch-js`
checks an output amount: a non-negative integer of at most `21 * 10 ^ 14`. -/
def isSatoshi : JsNum → Bool
  | .int z => decide (0 ≤ z ∧ z ≤ 2100000000000000)
  | _ => false

/-- The numerator of the binary64 number `1.1` over `2 ^ 52`:
`1.1 = 4953959590107546 / 2 ^ 52` exactly, as a double. -/
def onePointOneNum : Nat := 4953959590107546

/-- `Math.ceil(1.1 * b)` for a natural number `b` that is itself a double: the
exact product `b * 4953959590107546 / 2 ^ 52` is rounded to the nearest double
and the result rounded up to an integer. -/
def ceilOnePointOneTimes (b : Nat) : JsNum :=
  let r := roundSig (b * onePointOneNum)
  let c := (r + (2 ^ 52 - 1)) / 2 ^ 52
  if overflows c then .posInf else .int c

/-! ## JavaScript values, strings and errors -/

/-- The value of a string of decimal digits, most significant digit first. -/
def digitsValue (cs : List Char) : Nat :=
  cs.foldl (fun acc c => 10 * acc + (c.toNat - 48)) 0

/-- The natural number a non-empty string of decimal digits denotes. -/
def decimalValue (s : String) : Option Nat :=
  if s.data ≠ [] ∧ s.data.all Char.isDigit = true then some (digitsValue s.data) else none

/-- JavaScript `Number(s)` on the strings an indexer returns for an amount: a
string of decimal digits gives the double nearest to the number it denotes and
the empty string gives 0.  Every other string is mapped to `NaN`; signs,
fractions, exponents, radix prefixes and surrounding blanks are outside the
modelled fragment. -/
def Number (s : String) : JsNum :=
  if s.data = [] then .int 0
  else match decimalValue s with
    | some n => ofNat n
    | none => .nan

/-- The primitive values a caller can pass where the code expects a number. -/
inductive JsValue where
  | undefined
  | null
  | bool (b : Bool)
  | number (x : JsNum)
  | string (s : String)
  deriving DecidableEq, Repr

/-- Whether a value is truthy: `!v` is the negation of this. -/
def truthy : JsValue → Bool
  | .undefined => false
  | .null => false
  | .bool b => b
  | .number .nan => false
  | .number (.int z) => decide (z ≠ 0)
  | .number _ => true
  | .string s => decide (s.data ≠ [])

/-- JavaScript `v !== 0`. -/
def strictNeZero : JsValue → Bool
  | .number (.int z) => decide (z ≠ 0)
  | _ => true

/-- The decimal digits of `n`, most significant first, computed with fuel. -/
def decimalDigits : Nat → Nat → List Char → List Char
  | 0, _, acc => acc
  | f + 1, n, acc =>
    let acc1 := Char.ofNat (48 + n % 10) :: acc
    if n / 10 = 0 then acc1 else decimalDigits f (n / 10) acc1

/-- The decimal digits of `n` as a string. -/
def natToString (n : Nat) : String := String.mk (decimalDigits (n + 1) n [])

/-- The candidate with `k` significant decimal digits for printing the double
`d` of `L` decimal digits: of the two multiples of `10 ^ (L - k)` around `d`,
one that the binary64 rounding takes back to `d`, the closer one when both do
(the one with the even digit on a tie), and `none` when neither does. -/
def shortestCandidate (d L k : Nat) : Option Nat :=
  let scale := 10 ^ (L - k)
  let lo := d / scale * scale
  let hi := lo + scale
  if roundSig lo = d then
    if roundSig hi = d then
      if d - lo < hi - d then some lo
      else if hi - d < d - lo then some hi
      else if (lo / scale) % 2 = 0 then some lo else some hi
    else some lo
  else if roundSig hi = d then some hi
  else none

/-- The search of `shortestDecimal`, from `k` significant digits upwards with
`fuel` tries left; `d` itself when no shorter number is found. -/
def shortestFrom (d L : Nat) : Nat → Nat → Nat
  | 0, _ => d
  | fuel + 1, k =>
    match shortestCandidate d L k with
    | some c => c
    | none => shortestFrom d L fuel (k + 1)

/-- The number whose decimal digits JavaScript prints for the non-negative
integer double `d`: the one with the fewest significant digits among those the
binary64 rounding takes back to `d`, the closest to `d` among these. -/
def shortestDecimal (d : Nat) : Nat :=
  let L := (decimalDigits (d + 1) d []).length
  shortestFrom d L L 1

/-- The digits `ds` without their trailing zeros. -/
def stripTrailingZeros (ds : List Char) : List Char :=
  (ds.reverse.dropWhile (fun c => c == '0')).reverse

/-- The significant digits of a number in exponent form: a point after the
first digit when more digits follow. -/
def mantissa : List Char → List Char
  | [] => []
  | [first] => [first]
  | first :: second :: rest => first :: '.' :: second :: rest

/-- How JavaScript writes the non-negative integer `c` whose digits it prints:
the plain digits below `10 ^ 21`, and from there the significant digits, `e+`
and the decimal exponent. -/
def formatDecimal (c : Nat) : String :=
  if c < 10 ^ 21 then natToString c
  else
    let ds := decimalDigits (c + 1) c []
    String.mk (mantissa (stripTrailingZeros ds) ++ 'e' :: '+' ::
      (natToString (ds.length - 1)).data)

/-- How a template string renders the non-negative integer double `d`
(`Number::toString`): up to `2 ^ 53` every integer is a double of its own and
is written with its exact digits; above, the shortest digits that read back as
`d` are written. -/
def doubleToString (d : Nat) : String :=
  if d ≤ 2 ^ 53 then natToString d else formatDecimal (shortestDecimal d)

/-- How a template string renders a number. -/
def numToString : JsNum → String
  | .nan => "NaN"
  | .posInf => "Infinity"
  | .negInf => "-Infinity"
  | .int z => if 0 ≤ z then doubleToString z.toNat else "-" ++ doubleToString z.natAbs

/-- How a template string renders a primitive value. -/
def toJsString : JsValue → String
  | .undefined => "undefined"
  | .null => "null"
  | .bool true => "true"
  | .bool false => "false"
  | .number x => numToString x
  | .string s => s

/-- What a JavaScript `throw` carries in the modelled code. -/
inductive JsError where
  /-- `throw new Error(message)` in the code itself. -/
  | error (message : String)
  /-- A `TypeError` raised by the runtime. -/
  | typeError (message : String)
  /-- Whatever an external library call threw or rejected with. -/
  | thrown (reason : String)
  deriving DecidableEq, Repr

/-! ## Data exchanged with the indexer and the full node -/

/-- The fields of Blockbook's balance record that `getBalance` reads; the
indexer gives both as strings. -/
structure AddrInfo where
  balance : String
  unconfirmedBalance : String
  deriving DecidableEq, Repr

/-- An unspent output as the indexer lists it.  `txid` and `vout` are `none`
when the object lacks the property. -/
structure Utxo where
  txid : Option String
  vout : Option Nat
  satoshis : Nat
  deriving DecidableEq, Repr

/-- What `Blockbook.utxo` resolves to: an array of utxos, or some other value. -/
inductive UtxoResponse where
  | array (utxos : List Utxo)
  | other (v : JsValue)
  deriving DecidableEq, Repr

/-- What the full node's `getTxOut` reports for an unspent output. -/
structure TxOut where
  confirmations : Nat
  value : Nat
  deriving DecidableEq, Repr

/-- The wallet configuration `config/wallet.json`, read once at load time. -/
structure WalletInfo where
  mnemonic : String
  derivation : JsValue
  deriving DecidableEq, Repr

/-- Equality of outcomes is decidable when it is for errors and values. -/
instance instDecidableEqExcept {ε α : Type} [DecidableEq ε] [DecidableEq α] :
    DecidableEq (Except ε α)
  | .ok a, .ok b => if h : a = b then isTrue (by rw [h]) else isFalse (by intro h1; cases h1; exact h rfl)
  | .error a, .error b =>
    if h : a = b then isTrue (by rw [h]) else isFalse (by intro h1; cases h1; exact h rfl)
  | .ok _, .error _ => isFalse (by intro h; cases h)
  | .error _, .ok _ => isFalse (by intro h; cases h)

/-! ## Console state and the method monad -/

/-- One line written to the console. -/
inductive ConsoleLine where
  | text (s : String)
  | utxos (response : UtxoResponse)
  deriving DecidableEq, Repr

/-- The state the methods write: the lines printed so far. -/
structure World where
  console : List ConsoleLine
  deriving DecidableEq, Repr

/-- A JavaScript computation: from the state before, the value returned or the
error thrown, and the state after. -/
def Js (α : Type) : Type := World → Except JsError α × World

namespace Js

/-- Return a value. -/
protected def pure {α : Type} (a : α) : Js α := fun w => (.ok a, w)

/-- Sequence two computations; an error thrown by the first skips the second. -/
protected def bind {α β : Type} (m : Js α) (f : α → Js β) : Js β := fun w =>
  match m w with
  | (.ok a, w1) => f a w1
  | (.error e, w1) => (.error e, w1)

/-- JavaScript `throw`. -/
protected def throw {α : Type} (e : JsError) : Js α := fun w => (.error e, w)

/-- JavaScript `try ... catch (err) ...`. -/
protected def tryCatch {α : Type} (m : Js α) (handler : JsError → Js α) : Js α := fun w =>
  match m w with
  | (.ok a, w1) => (.ok a, w1)
  | (.error e, w1) => handler e w1

/-- The outcome of a call to the external library, which leaves the console alone. -/
protected def call {α : Type} (r : Except JsError α) : Js α := fun w => (r, w)

end Js

instance : Monad Js where
  pure := Js.pure
  bind := Js.bind

instance : MonadExcept JsError Js where
  throw := Js.throw
  tryCatch := Js.tryCatch

instance : MonadLift (Except JsError) Js where
  monadLift := Js.call

/-- JavaScript `console.log(line)` and `console.error(line)`. -/
def consoleLog (line : ConsoleLine) : Js Unit :=
  fun w => (.ok (), { w with console := w.console ++ [line] })

/-! ## The external library `bch-js` -/

/-- The state of a `TransactionBuilder`: the calls made on it so far. -/
structure TransactionBuilder (KeyPair : Type) where
  /-- The `(txid, vout)` of each `addInput`, in call order. -/
  inputs : List (Option String × Option Nat)
  /-- The `(address, amount)` of each `addOutput`, in call order. -/
  outputs : List (String × JsNum)
  /-- The `(input index, key pair, amount)` of each `sign`, in call order. -/
  signatures : List (Nat × KeyPair × Nat)

/-- The functions of `bch-js` that the class calls.  Each may throw.  The
transaction builder's `addInput`, `addOutput` and `sign` record their call when
the library accepts it. -/
structure BchJs (Seed Node KeyPair Tx : Type) where
  /-- `Address.toCashAddress`. -/
  toCashAddress : String → Except JsError String
  /-- `Address.toLegacyAddress`. -/
  toLegacyAddress : String → Except JsError String
  /-- `Blockbook.balance`. -/
  blockbookBalance : String → Except JsError AddrInfo
  /-- `Blockbook.utxo`. -/
  blockbookUtxo : String → Except JsError UtxoResponse
  /-- `Mnemonic.toSeed`. -/
  toSeed : String → Except JsError Seed
  /-- `HDNode.fromSeed`. -/
  fromSeed : Seed → Except JsError Node
  /-- `HDNode.derivePath`. -/
  derivePath : Node → String → Except JsError Node
  /-- `HDNode.toKeyPair`. -/
  toKeyPair : Node → Except JsError KeyPair
  /-- `Blockchain.getTxOut`: `none` is JavaScript `null`. -/
  getTxOut : String → Nat → Except JsError (Option TxOut)
  /-- Whether `addInput` accepts its arguments. -/
  acceptsInput : TransactionBuilder KeyPair → Option String → Option Nat → Except JsError Unit
  /-- Whether `addOutput` accepts its arguments. -/
  acceptsOutput : TransactionBuilder KeyPair → String → JsNum → Except JsError Unit
  /-- Whether `sign` accepts its arguments. -/
  acceptsSign : TransactionBuilder KeyPair → Nat → KeyPair → Nat → Except JsError Unit
  /-- `TransactionBuilder.build`. -/
  build : TransactionBuilder KeyPair → Except JsError Tx
  /-- `Transaction.toHex`. -/
  toHex : Tx → String

/-- The `BITBOX` library the fee computation reads from `this.BITBOX`. -/
structure Bitbox where
  /-- `BitcoinCash.getByteCount` of a number of P2PKH inputs and P2PKH outputs. -/
  getByteCount : Nat → Nat → Nat

/-- An instance of the class `BCH`: the properties of `this` the methods read.
`BITBOX` is `none` when `this.BITBOX` is `undefined`. -/
structure BCH (Seed Node KeyPair Tx : Type) where
  bchjs : BchJs Seed Node KeyPair Tx
  BITBOX : Option Bitbox

variable {Seed Node KeyPair Tx : Type}

/-- The class constructor: it sets `this.bchjs` and nothing else. -/
def BCH.new (bchjs : BchJs Seed Node KeyPair Tx) : BCH Seed Node KeyPair Tx :=
  { bchjs := bchjs, BITBOX := none }

/-! ## The methods of `BCH` -/

/-- `getBalance(addr)`: the balance of an address, in satoshis. -/
def getBalance (self : BCH Seed Node KeyPair Tx) (addr : String) : Js JsNum :=
  tryCatch
    (do
      let bchAddr ← self.bchjs.toCashAddress addr
      let addrInfo ← self.bchjs.blockbookBalance bchAddr
      let balance := jsAdd (Number addrInfo.balance) (Number addrInfo.unconfirmedBalance)
      return balance)
    (fun err => do
      consoleLog (.text "Error in bch.js/getBalance()")
      throw err)

/-- `getUtxos(addr)`: the utxos of an address. -/
def getUtxos (self : BCH Seed Node KeyPair Tx) (addr : String) : Js UtxoResponse :=
  tryCatch
    (do
      let bchAddr ← self.bchjs.toCashAddress addr
      let utxos ← self.bchjs.blockbookUtxo bchAddr
      return utxos)
    (fun err => do
      consoleLog (.text "Error in bch.js/getUtxos()")
      throw err)

/-- The template string of the BIP44 account path. -/
def accountPath (walletInfo : WalletInfo) : String :=
  "m/44'/" ++ toJsString walletInfo.derivation ++ "'/0'"

/-- The template string of the path from the account to the change address. -/
def changePath (index : JsValue) : String :=
  "0/" ++ toJsString index

/-- The derivation `changeAddrFromMnemonic` performs once its two checks have
passed: seed, master node, account node, change node. -/
def derivedNode (lib : BchJs Seed Node KeyPair Tx) (walletInfo : WalletInfo)
    (index : JsValue) : Except JsError Node := do
  let rootSeed ← lib.toSeed walletInfo.mnemonic
  let masterHDNode ← lib.fromSeed rootSeed
  let account ← lib.derivePath masterHDNode (accountPath walletInfo)
  lib.derivePath account (changePath index)

/-- `changeAddrFromMnemonic(index)`: the HD node of the address at `index`. -/
def changeAddrFromMnemonic (self : BCH Seed Node KeyPair Tx) (walletInfo : WalletInfo)
    (index : JsValue) : Js Node :=
  tryCatch
    (do
      if !truthy walletInfo.derivation then
        throw (JsError.error "walletInfo must have integer derivation value.")
      if !truthy index && strictNeZero index then
        throw (JsError.error "index must be a non-negative integer.")
      let rootSeed ← self.bchjs.toSeed walletInfo.mnemonic
      let masterHDNode ← self.bchjs.fromSeed rootSeed
      let account ← self.bchjs.derivePath masterHDNode (accountPath walletInfo)
      let change ← self.bchjs.derivePath account (changePath index)
      return change)
    (fun err => do
      consoleLog (.text "Error in bch.js/changeAddrFromMnemonic()")
      throw err)

/-- `isValidUtxo(utxo)`: whether the full node still lists the output as unspent. -/
def isValidUtxo (self : BCH Seed Node KeyPair Tx) (utxo : Utxo) : Js Bool :=
  tryCatch
    (do
      match utxo.txid, utxo.vout with
      | none, _ => throw (JsError.error "utxo does not have a txid property")
      | some txid, vout =>
        if txid.data = [] then
          throw (JsError.error "utxo does not have a txid property")
        match vout with
        | none => throw (JsError.error "utxo does not have a vout property")
        | some vout =>
          let txout ← self.bchjs.getTxOut txid vout
          if txout = none then return false
          return true)
    (fun err => do
      consoleLog (.text "Error in bch.js/validateUtxo()")
      throw err)

/-- `new this.bchjs.TransactionBuilder()`: a builder nothing was called on. -/
def newTransactionBuilder : TransactionBuilder KeyPair :=
  { inputs := [], outputs := [], signatures := [] }

/-- `transactionBuilder.addInput(txid, vout)`. -/
def addInput (lib : BchJs Seed Node KeyPair Tx) (tb : TransactionBuilder KeyPair)
    (txid : Option String) (vout : Option Nat) : Js (TransactionBuilder KeyPair) := do
  let _ ← lib.acceptsInput tb txid vout
  return { tb with inputs := tb.inputs ++ [(txid, vout)] }

/-- `transactionBuilder.addOutput(address, amount)`. -/
def addOutput (lib : BchJs Seed Node KeyPair Tx) (tb : TransactionBuilder KeyPair)
    (address : String) (amount : JsNum) : Js (TransactionBuilder KeyPair) := do
  let _ ← lib.acceptsOutput tb address amount
  return { tb with outputs := tb.outputs ++ [(address, amount)] }

/-- `transactionBuilder.sign(i, keyPair, redeemScript, SIGHASH_ALL, amount)` with
`redeemScript` undefined. -/
def sign (lib : BchJs Seed Node KeyPair Tx) (tb : TransactionBuilder KeyPair)
    (i : Nat) (keyPair : KeyPair) (amount : Nat) : Js (TransactionBuilder KeyPair) := do
  let _ ← lib.acceptsSign tb i keyPair amount
  return { tb with signatures := tb.signatures ++ [(i, keyPair, amount)] }

/-- The first loop of `sendAllAddr` (lines 143-149) from the utxo it has
reached: add each utxo's satoshis to `originalAmount` and the utxo to the
builder. -/
def addAllInputs (lib : BchJs Seed Node KeyPair Tx) :
    List Utxo → JsNum → TransactionBuilder KeyPair → Js (JsNum × TransactionBuilder KeyPair)
  | [], originalAmount, tb => pure (originalAmount, tb)
  | utxo :: rest, originalAmount, tb => do
    let originalAmount := jsAdd originalAmount (.int utxo.satoshis)
    let tb ← addInput lib tb utxo.txid utxo.vout
    addAllInputs lib rest originalAmount tb

/-- The second loop of `sendAllAddr` (lines 179-193) from input `i`: derive the
key pair at `hdIndex` and sign input `i` with it. -/
def signAllInputs (self : BCH Seed Node KeyPair Tx) (walletInfo : WalletInfo)
    (hdIndex : JsValue) : List Utxo → Nat → TransactionBuilder KeyPair →
    Js (TransactionBuilder KeyPair)
  | [], _, tb => pure tb
  | utxo :: rest, i, tb => do
    let change ← changeAddrFromMnemonic self walletInfo hdIndex
    let keyPair ← self.bchjs.toKeyPair change
    let tb ← sign self.bchjs tb i keyPair utxo.satoshis
    signAllInputs self walletInfo hdIndex rest (i + 1) tb

/-- The body of `sendAllAddr` up to the call of `build` (lines 129-193): the
transaction builder with its inputs, its output and its signatures. -/
def sendAllAddrBuilder (self : BCH Seed Node KeyPair Tx) (walletInfo : WalletInfo)
    (fromAddr : String) (hdIndex : JsValue) (toAddr : String) :
    Js (TransactionBuilder KeyPair) := do
  let response ← getUtxos self fromAddr
  consoleLog (.utxos response)
  match response with
  | .other _ => throw (JsError.error "utxos must be an array.")
  | .array utxos =>
    if utxos.length = 0 then
      throw (JsError.error "No utxos found.")
    let transactionBuilder : TransactionBuilder KeyPair := newTransactionBuilder
    let (originalAmount, transactionBuilder) ←
      addAllInputs self.bchjs utxos (.int 0) transactionBuilder
    if jsLt originalAmount (.int 1) then
      throw (JsError.error "Original amount is zero. No BCH to send.")
    match self.BITBOX with
    | none => throw (JsError.typeError "Cannot read property 'BitcoinCash' of undefined")
    | some bitbox =>
      let byteCount := bitbox.getByteCount utxos.length 1
      let fee := ceilOnePointOneTimes byteCount
      let sendAmount := jsSub originalAmount fee
      let legacy ← self.bchjs.toLegacyAddress toAddr
      let transactionBuilder ← addOutput self.bchjs transactionBuilder legacy sendAmount
      signAllInputs self walletInfo hdIndex utxos 0 transactionBuilder

/-- `sendAllAddr(fromAddr, hdIndex, toAddr)`: the hex of a transaction. -/
def sendAllAddr (self : BCH Seed Node KeyPair Tx) (walletInfo : WalletInfo)
    (fromAddr : String) (hdIndex : JsValue) (toAddr : String) : Js String :=
  tryCatch
    (do
      let transactionBuilder ← sendAllAddrBuilder self walletInfo fromAddr hdIndex toAddr
      let tx ← self.bchjs.build transactionBuilder
      let hex := self.bchjs.toHex tx
      return hex)
    (fun err => do
      consoleLog (.text "Error in bch.js/sendAllAddr()")
      throw err)

/-! ## The credit ledger and the token issuer

The controller that issues API tokens (`src/modules/apitoken/controller`) is
exercised by `test/unit/a03-apitoken.spec.js` but is not among the source
files; the definitions of this section follow sections 3 and 4 of the
specification. -/

/-- Modelled from the spec: the failures of section 7 that the ledger and the
token issuer report; the controller that raises them is missing from the
sources. -/
inductive LedgerError where
  | invalidTier
  | insufficientCredit
  | invariantViolation
  | priceUnavailable
  | addressLookupFailed
  deriving DecidableEq, Repr

/-- Modelled from the spec: the fields of the user record of section 3 that the
ledger and the token issuer read and write; the user model is missing from the
sources. -/
structure User where
  id : String
  bchAddr : String
  hdIndex : Nat
  credit : ℚ
  apiToken : Option String
  apiLevel : Nat
  apiTokenExp : Nat
  lastCreditCheckBalance : Nat
  deriving DecidableEq

/-- Modelled from the spec: the deployment's parameters of sections 4.4 and 4.5,
that is the price table of the tiers other than 0 (`none` for a tier the table
does not know), the lifetime of a token and the signing of a token's claims;
the configuration and the JWT library are missing from the sources. -/
structure Tiers where
  table : Nat → Option ℚ
  tokenLifetime : Nat
  signToken : String → Nat → Nat → String

/-- Modelled from the spec: `priceOf(tier)` of section 4.4, the table's price
with tier 0 always free; the pricing code is missing from the sources. -/
def priceOf (cfg : Tiers) (tier : Nat) : Option ℚ :=
  if tier = 0 then some 0 else cfg.table tier

/-- Modelled from the spec: whether the user holds an active (non-expired)
token at time `now` (section 4.5 step 3); the controller is missing from the
sources. -/
def hasActiveToken (user : User) (now : Nat) : Bool :=
  user.apiToken.isSome && decide (now < user.apiTokenExp)

/-- Modelled from the spec: `refundFor(user)` of section 4.4, the price of the
user's tier pro-rated linearly by the remaining share of the token lifetime and
clamped to the half-open interval from 0 to that price, and 0 without an active
token.  Time is counted in whole units, so the clamp counts a remaining time of
a full lifetime or more as one unit short of the lifetime, which gives the
largest pro-rated amount below the price.  The controller's `_calculateRefund`
is missing from the sources. -/
def refundFor (cfg : Tiers) (user : User) (now : Nat) : ℚ :=
  if hasActiveToken user now then
    match priceOf cfg user.apiLevel with
    | none => 0
    | some price =>
      max 0 (price * ((min (user.apiTokenExp - now) (cfg.tokenLifetime - 1) : Nat) : ℚ)
        / (cfg.tokenLifetime : ℚ))
  else 0

/-- Modelled from the spec: `CreditLedger.credit(user, amount)` of section 4.3,
which adds a non-negative amount and rejects a negative one; the ledger code is
missing from the sources. -/
def creditUser (user : User) (amount : ℚ) : Except LedgerError User :=
  if amount < 0 then .error .invariantViolation
  else .ok { user with credit := user.credit + amount }

/-- Modelled from the spec: `CreditLedger.debit(user, amount)` of section 4.3,
which fails when the amount exceeds the credit; the ledger code is missing from
the sources. -/
def debitUser (user : User) (amount : ℚ) : Except LedgerError User :=
  if user.credit < amount then .error .insufficientCredit
  else .ok { user with credit := user.credit - amount }

/-- Modelled from the spec: `issue(user, requestedTier)` of section 4.5, steps 1
to 7, at time `now`.  The result is the token or the failure, together with the
user record as it is stored afterwards (a refund committed in step 3 stays when
step 4 fails); the controller is missing from the sources. -/
def issue (cfg : Tiers) (user : User) (requestedTier : Int) (now : Nat) :
    Except LedgerError String × User :=
  if requestedTier < 0 then (.error .invalidTier, user)
  else
    match priceOf cfg requestedTier.toNat with
    | none => (.error .invalidTier, user)
    | some price =>
      let refunded : Except LedgerError User :=
        if hasActiveToken user now then creditUser user (refundFor cfg user now) else .ok user
      match refunded with
      | .error e => (.error e, user)
      | .ok user1 =>
        if 0 < price ∧ user1.credit < price then (.error .insufficientCredit, user1)
        else
          match debitUser user1 price with
          | .error e => (.error e, user1)
          | .ok user2 =>
            let exp := now + cfg.tokenLifetime
            let token := cfg.signToken user2.id requestedTier.toNat exp
            (.ok token,
              { user2 with apiToken := some token, apiLevel := requestedTier.toNat,
                           apiTokenExp := exp })

/-- Modelled from the spec: `currentPrice()` of section 4.1 over the quote the
upstream source gives (`none` when it is unreachable), which fails with
`PriceUnavailable` unless the quote is positive; the price client is missing
from the sources. -/
def currentPrice (quote : Option ℚ) : Except LedgerError ℚ :=
  match quote with
  | none => .error .priceUnavailable
  | some price => if 0 < price then .ok price else .error .priceUnavailable

/-- Modelled from the spec: `refreshCredit(user)` of section 4.3, steps 1 to 5.
`balanceOf` is the address watcher of section 4.2, giving the confirmed and the
unconfirmed balance of an address or `none` when the lookup fails, and the
price is quoted per unit of balance.  The result is the credit returned or the
failure, together with the user record as it is stored afterwards; the
controller is missing from the sources. -/
def refreshCredit (balanceOf : String → Option (Nat × Nat)) (quote : Option ℚ) (user : User) :
    Except LedgerError ℚ × User :=
  match balanceOf user.bchAddr with
  | none => (.error .addressLookupFailed, user)
  | some (confirmed, unconfirmed) =>
    let newBalance := confirmed + unconfirmed
    let delta : Int := (newBalance : Int) - (user.lastCreditCheckBalance : Int)
    if delta ≤ 0 then (.ok user.credit, user)
    else
      match currentPrice quote with
      | .error e => (.error e, user)
      | .ok price =>
        let creditToAdd : ℚ := (delta : ℚ) * price
        let credit := user.credit + creditToAdd
        (.ok credit, { user with credit := credit, lastCreditCheckBalance := newBalance })

/-- Modelled from the spec: the claims a token carries (section 4.5 step 6);
the JWT library is missing from the sources. -/
structure Claims where
  userId : String
  apiLevel : Nat
  exp : Nat
  deriving DecidableEq, Repr

/-- Modelled from the spec: the answer of `validate` (section 4.5); the
controller is missing from the sources. -/
structure Validation where
  isValid : Bool
  apiLevel : Nat
  deriving DecidableEq, Repr

/-- Modelled from the spec: `validate(tokenString)` of section 4.5 at time
`now`.  `verify` checks the signature and decodes the claims (`none` on any
signature or decode error) and `lookup` is the user store.  The token is valid
when it verifies, its `exp` has not passed, and it is the token stored on the
user's record; the level is the stored one.  The controller is missing from the
sources. -/
def validate (verify : String → Option Claims) (lookup : String → Option User)
    (tokenString : String) (now : Nat) : Validation :=
  match verify tokenString with
  | none => { isValid := false, apiLevel := 0 }
  | some claims =>
    if claims.exp ≤ now then { isValid := false, apiLevel := 0 }
    else
      match lookup claims.userId with
      | none => { isValid := false, apiLevel := 0 }
      | some user =>
        if user.apiToken = some tokenString then { isValid := true, apiLevel := user.apiLevel }
        else { isValid := false, apiLevel := 0 }

/-- Modelled from the spec: the user store after `user` has been written to
it (`update(id, fields)` of section 6); the store is missing from the sources. -/
def storeUser (lookup : String → Option User) (user : User) : String → Option User :=
  fun id => if id = user.id then some user else lookup id

/-! ## Concrete objects for the examples -/

/-- A stand-in for `bch-js` with seeds, nodes, key pairs and transactions
written as strings. -/
def demoLib : BchJs String String String String where
  toCashAddress := fun a =>
    if a = "" then .error (.thrown "Unsupported address format") else .ok a
  toLegacyAddress := fun a =>
    if a = "" then .error (.thrown "Unsupported address format") else .ok a
  blockbookBalance := fun a =>
    if a = "offline" then .error (.thrown "Network Error")
    else if a = "large" then
      .ok { balance := "9007199254740993", unconfirmedBalance := "0" }
    else .ok { balance := "1000", unconfirmedBalance := "500" }
  blockbookUtxo := fun a =>
    if a = "offline" then .error (.thrown "Network Error")
    else .ok (.array [{ txid := some "aa", vout := some 0, satoshis := 1000 }])
  toSeed := fun m => .ok m
  fromSeed := fun s => .ok s
  derivePath := fun n path => .ok (n ++ " " ++ path)
  toKeyPair := fun n => .ok n
  getTxOut := fun txid _ =>
    if txid = "spent" then .ok none else .ok (some { confirmations := 1, value := 1000 })
  acceptsInput := fun _ _ _ => .ok ()
  acceptsOutput := fun _ _ _ => .ok ()
  acceptsSign := fun _ _ _ _ => .ok ()
  build := fun tb =>
    .ok (String.intercalate "," (tb.outputs.map fun o => o.1 ++ "=" ++ numToString o.2))
  toHex := fun tx => tx

/-- The instance the constructor makes of `demoLib`. -/
def demoBch : BCH String String String String := BCH.new demoLib

/-- The byte count of a transaction of P2PKH inputs and outputs, as BITBOX
estimates it. -/
def demoBitbox : Bitbox where
  getByteCount := fun inputs outputs => inputs * 148 + outputs * 34 + 10

/-- An instance of `demoLib` on which `BITBOX` has been set as well. -/
def demoBchWithBitbox : BCH String String String String :=
  { bchjs := demoLib, BITBOX := some demoBitbox }

/-- A wallet configuration. -/
def demoWallet : WalletInfo :=
  { mnemonic := "abandon ability", derivation := .number (.int 145) }

/-- The state before anything was printed. -/
def emptyWorld : World := { console := [] }

/-- A price table: tier 10 costs 10, tier 20 costs 20. -/
def demoTiers : Tiers where
  table := fun tier => if tier = 10 then some 10 else if tier = 20 then some 20 else none
  tokenLifetime := 2592000
  signToken := fun id level exp =>
    id ++ "." ++ natToString level ++ "." ++ natToString exp

/-- A user with credit 100 and no token. -/
def demoUser : User :=
  { id := "u1", bchAddr := "bitcoincash:qq", hdIndex := 1, credit := 100, apiToken := none,
    apiLevel := 0, apiTokenExp := 0, lastCreditCheckBalance := 0 }

/-- The stand-in library with an indexer that answers `response` for the utxos
of every address. -/
def demoLibWith (response : UtxoResponse) : BchJs String String String String :=
  { demoLib with blockbookUtxo := fun _ => .ok response }

/-- An instance of `demoLibWith response` on which `BITBOX` has been set. -/
def demoBchWith (response : UtxoResponse) : BCH String String String String :=
  { bchjs := demoLibWith response, BITBOX := some demoBitbox }

/-- The stand-in library with an indexer that answers `response` and a
transaction builder that, like the one of `bch-js`, accepts an output only when
its amount is a Satoshi value. -/
def demoCheckedLib (response : UtxoResponse) : BchJs String String String String :=
  { demoLibWith response with
    acceptsOutput := fun _ _ amount =>
      if isSatoshi amount then .ok () else .error (.thrown "Expected Satoshi") }

/-- An instance of `demoCheckedLib response` on which `BITBOX` has been set. -/
def demoCheckedBch (response : UtxoResponse) : BCH String String String String :=
  { bchjs := demoCheckedLib response, BITBOX := some demoBitbox }

/-- Two utxos of 600 and 400 satoshis. -/
def demoUtxos : List Utxo :=
  [{ txid := some "aa", vout := some 0, satoshis := 600 },
   { txid := some "bb", vout := some 1, satoshis := 400 }]

/-- A user with credit 5 and no token. -/
def demoPoorUser : User :=
  { id := "u2", bchAddr := "bitcoincash:qp", hdIndex := 2, credit := 5, apiToken := none,
    apiLevel := 0, apiTokenExp := 0, lastCreditCheckBalance := 0 }

/-- A user with credit 5 who holds a tier 20 token issued at time 1000. -/
def demoTier20User : User :=
  { id := "u3", bchAddr := "bitcoincash:qr", hdIndex := 3, credit := 5,
    apiToken := some "u3.20.2593000", apiLevel := 20, apiTokenExp := 2593000,
    lastCreditCheckBalance := 0 }

/-- A user with credit 100 who holds a free token issued at time 1000. -/
def demoFreeUser : User :=
  { id := "u4", bchAddr := "bitcoincash:qs", hdIndex := 4, credit := 100,
    apiToken := some "u4.0.2593000", apiLevel := 0, apiTokenExp := 2593000,
    lastCreditCheckBalance := 0 }

/-- A verifier that accepts the tokens of the examples. -/
def demoVerify : String → Option Claims := fun token =>
  if token = "u4.0.2593000" then some { userId := "u4", apiLevel := 0, exp := 2593000 }
  else if token = "u4.0.2593001" then some { userId := "u4", apiLevel := 0, exp := 2593001 }
  else none

/-- An address watcher that reports no confirmed and 1000000 unconfirmed units. -/
def demoDeposit : String → Option (Nat × Nat) := fun _ => some (0, 1000000)

/-- An address watcher that reports an empty address. -/
def demoNoDeposit : String → Option (Nat × Nat) := fun _ => some (0, 0)

/-! ## Facts about the number model -/

theorem bitLenAux_le (f : Nat) : ∀ n k : Nat, n < 2 ^ k → bitLenAux f n ≤ k := by
  induction f with
  | zero => intro n k _; simp [bitLenAux]
  | succ f ih =>
    intro n k h
    unfold bitLenAux
    split
    · exact Nat.zero_le _
    · rename_i hn
      cases k with
      | zero => simp at h; omega
      | succ k =>
        have h2 : n / 2 < 2 ^ k := by
          rw [Nat.div_lt_iff_lt_mul (by decide)]
          rw [Nat.pow_succ] at h
          exact h
        have := ih (n / 2) k h2
        omega

theorem bitLen_le {n k : Nat} (h : n < 2 ^ k) : bitLen n ≤ k :=
  bitLenAux_le n n k h

theorem roundSig_of_lt {n : Nat} (h : n < 2 ^ 53) : roundSig n = n := by
  have hb : bitLen n - 53 = 0 := by
    have := bitLen_le h
    omega
  simp [roundSig, hb, Nat.mod_one]

theorem roundSig_of_le {n : Nat} (h : n ≤ 2 ^ 53) : roundSig n = n := by
  rcases Nat.lt_or_eq_of_le h with h1 | h1
  · exact roundSig_of_lt h1
  · subst h1; decide

theorem overflows_of_le {n : Nat} (h : n ≤ 2 ^ 53) : overflows n = false := by
  have h1 : n < 2 ^ 54 := by
    have : (2 : Nat) ^ 53 < 2 ^ 54 := by decide
    omega
  have := bitLen_le h1
  simp [overflows]
  omega

theorem ofNat_of_le {n : Nat} (h : n ≤ 2 ^ 53) : ofNat n = .int n := by
  simp [ofNat, roundSig_of_le h, overflows_of_le h]

theorem Number_of_decimalValue {s : String} {n : Nat} (h : decimalValue s = some n) :
    Number s = ofNat n := by
  unfold Number
  have hne : s.data ≠ [] := by
    intro h0
    simp [decimalValue, h0] at h
  simp [hne, h]

/-! ## Running the method monad -/

@[simp] theorem run_pure {α : Type} (a : α) (w : World) : (pure a : Js α) w = (.ok a, w) := rfl

@[simp] theorem run_bind {α β : Type} (m : Js α) (f : α → Js β) (w : World) :
    (m >>= f) w = match m w with
      | (.ok a, w1) => f a w1
      | (.error e, w1) => (.error e, w1) := rfl

@[simp] theorem run_throw {α : Type} (e : JsError) (w : World) :
    (throw e : Js α) w = (.error e, w) := rfl

@[simp] theorem run_tryCatch {α : Type} (m : Js α) (handler : JsError → Js α) (w : World) :
    (tryCatch m handler) w = match m w with
      | (.ok a, w1) => (.ok a, w1)
      | (.error e, w1) => handler e w1 := rfl

@[simp] theorem run_call {α : Type} (r : Except JsError α) (w : World) :
    (liftM r : Js α) w = (r, w) := rfl

@[simp] theorem run_monadLift {α : Type} (r : Except JsError α) (w : World) :
    (monadLift r : Js α) w = (r, w) := rfl

@[simp] theorem run_consoleLog (line : ConsoleLine) (w : World) :
    consoleLog line w = (.ok (), { console := w.console ++ [line] }) := rfl

/-! ## `getBalance` -/

theorem getBalance_ok (self : BCH Seed Node KeyPair Tx) (addr a : String) (info : AddrInfo)
    (w : World) (ha : self.bchjs.toCashAddress addr = .ok a)
    (hi : self.bchjs.blockbookBalance a = .ok info) :
    getBalance self addr w
      = (.ok (jsAdd (Number info.balance) (Number info.unconfirmedBalance)), w) := by
  simp [getBalance, ha, hi]

theorem jsAdd_ofNat_of_le {c u : Nat} (h : c + u ≤ 2 ^ 53) :
    jsAdd (ofNat c) (ofNat u) = .int ((c + u : Nat) : Int) := by
  have hc : c ≤ 2 ^ 53 := by omega
  have hu : u ≤ 2 ^ 53 := by omega
  rw [ofNat_of_le hc, ofNat_of_le hu]
  have h0 : (0 : Int) ≤ (c : Int) + (u : Int) := by omega
  have ht : ((c : Int) + (u : Int)).toNat = c + u := by omega
  simp only [jsAdd, ofInt, h0, if_true, ht]
  rw [ofNat_of_le h]

/-- C1 (as amended): for an address whose indexer record has confirmed balance
`c` and unconfirmed balance `u`, both given as strings of decimal digits, with
`c + u` at most `2 ^ 53`, `getBalance` returns exactly `c + u` and prints
nothing. -/
theorem getBalance_eq_sum (self : BCH Seed Node KeyPair Tx) (addr a : String)
    (info : AddrInfo) (c u : Nat) (w : World)
    (ha : self.bchjs.toCashAddress addr = .ok a)
    (hi : self.bchjs.blockbookBalance a = .ok info)
    (hc : decimalValue info.balance = some c)
    (hu : decimalValue info.unconfirmedBalance = some u)
    (hsum : c + u ≤ 2 ^ 53) :
    getBalance self addr w = (.ok (.int ((c + u : Nat) : Int)), w) := by
  rw [getBalance_ok self addr a info w ha hi, Number_of_decimalValue hc,
    Number_of_decimalValue hu, jsAdd_ofNat_of_le hsum]

/-- An instance of `getBalance_eq_sum`: balances "1000" and "500" give 1500. -/
theorem getBalance_eq_sum_witness :
    getBalance demoBch "addr" emptyWorld = (.ok (.int ((1000 + 500 : Nat) : Int)), emptyWorld) :=
  getBalance_eq_sum demoBch "addr" "addr" { balance := "1000", unconfirmedBalance := "500" }
    1000 500 emptyWorld (by decide) (by decide) (by decide) (by decide) (by decide)

/-- C1 (as stated) fails: with confirmed balance "9007199254740993" and
unconfirmed balance "0" the indexer record denotes the sum 9007199254740993,
and `getBalance` returns 9007199254740992. -/
theorem getBalance_inexact_above_two_pow_53 :
    demoBch.bchjs.toCashAddress "large" = .ok "large" ∧
    demoBch.bchjs.blockbookBalance "large"
      = .ok { balance := "9007199254740993", unconfirmedBalance := "0" } ∧
    decimalValue "9007199254740993" = some 9007199254740993 ∧
    decimalValue "0" = some 0 ∧
    (getBalance demoBch "large" emptyWorld).1 = .ok (.int 9007199254740992) ∧
    ¬ (getBalance demoBch "large" emptyWorld).1
        = .ok (.int ((9007199254740993 + 0 : Nat) : Int)) := by
  decide

/-- C9: when the address conversion fails with an error, or the conversion
succeeds and the indexer's balance lookup fails with an error, `getBalance`
throws that same error (after printing its error line) and returns no balance. -/
theorem getBalance_rethrows (self : BCH Seed Node KeyPair Tx) (addr : String) (e : JsError)
    (w : World)
    (h : self.bchjs.toCashAddress addr = .error e ∨
      ∃ a, self.bchjs.toCashAddress addr = .ok a ∧ self.bchjs.blockbookBalance a = .error e) :
    getBalance self addr w
        = (.error e, { console := w.console ++ [.text "Error in bch.js/getBalance()"] }) ∧
      ∀ balance, (getBalance self addr w).1 ≠ .ok balance := by
  have key : getBalance self addr w
      = (.error e, { console := w.console ++ [.text "Error in bch.js/getBalance()"] }) := by
    rcases h with h | ⟨a, ha, hb⟩
    · simp [getBalance, h]
    · simp [getBalance, ha, hb]
  refine ⟨key, ?_⟩
  intro balance
  rw [key]
  simp

/-- An instance of `getBalance_rethrows`: the indexer is unreachable. -/
theorem getBalance_rethrows_witness :
    getBalance demoBch "offline" emptyWorld
        = (.error (.thrown "Network Error"),
            { console := emptyWorld.console ++ [.text "Error in bch.js/getBalance()"] }) ∧
      ∀ balance, (getBalance demoBch "offline" emptyWorld).1 ≠ .ok balance :=
  getBalance_rethrows demoBch "offline" (.thrown "Network Error") emptyWorld
    (Or.inr ⟨"offline", by decide, by decide⟩)

/-! ## `isValidUtxo` -/

/-- C5: for a utxo that has a txid (a non-empty string) and a vout, when the
full node's `getTxOut(txid, vout)` answers `r`, `isValidUtxo` returns true if
`r` is not null and false if it is null, and prints nothing. -/
theorem isValidUtxo_iff_unspent (self : BCH Seed Node KeyPair Tx) (utxo : Utxo)
    (txid : String) (vout : Nat) (r : Option TxOut) (w : World)
    (htxid : utxo.txid = some txid) (hne : txid.data ≠ [])
    (hvout : utxo.vout = some vout)
    (hr : self.bchjs.getTxOut txid vout = .ok r) :
    isValidUtxo self utxo w = (.ok (decide (r ≠ none)), w) ∧
      ((isValidUtxo self utxo w).1 = .ok true ↔ r ≠ none) := by
  have key : isValidUtxo self utxo w = (.ok (decide (r ≠ none)), w) := by
    cases r with
    | none => simp [isValidUtxo, htxid, hvout, hne, hr]
    | some t => simp [isValidUtxo, htxid, hvout, hne, hr]
  refine ⟨key, ?_⟩
  rw [key]
  cases r <;> simp

/-- An instance of `isValidUtxo_iff_unspent`: an output the node lists. -/
theorem isValidUtxo_iff_unspent_witness :
    isValidUtxo demoBch { txid := some "aa", vout := some 0, satoshis := 1000 } emptyWorld
        = (.ok (decide ((some { confirmations := 1, value := 1000 } : Option TxOut) ≠ none)),
            emptyWorld) ∧
      ((isValidUtxo demoBch { txid := some "aa", vout := some 0, satoshis := 1000 }
          emptyWorld).1 = .ok true ↔
        (some { confirmations := 1, value := 1000 } : Option TxOut) ≠ none) :=
  isValidUtxo_iff_unspent demoBch { txid := some "aa", vout := some 0, satoshis := 1000 }
    "aa" 0 (some { confirmations := 1, value := 1000 }) emptyWorld rfl (by decide) rfl
    (by decide)

/-! ## `changeAddrFromMnemonic` -/

theorem changeAddrFromMnemonic_run (self : BCH Seed Node KeyPair Tx) (walletInfo : WalletInfo)
    (index : JsValue) (w : World) (h1 : truthy walletInfo.derivation = true)
    (h2 : (!truthy index && strictNeZero index) = false) :
    changeAddrFromMnemonic self walletInfo index w =
      match derivedNode self.bchjs walletInfo index with
      | .ok change => (.ok change, w)
      | .error e =>
        (.error e,
          { console := w.console ++ [.text "Error in bch.js/changeAddrFromMnemonic()"] }) := by
  cases hs : self.bchjs.toSeed walletInfo.mnemonic with
  | error e =>
    have hd : derivedNode self.bchjs walletInfo index = .error e := by
      simp [derivedNode, hs, bind, Except.bind]
    rw [hd]; simp [changeAddrFromMnemonic, h1, h2, hs]
  | ok seed =>
    cases hm : self.bchjs.fromSeed seed with
    | error e =>
      have hd : derivedNode self.bchjs walletInfo index = .error e := by
        simp [derivedNode, hs, hm, bind, Except.bind]
      rw [hd]; simp [changeAddrFromMnemonic, h1, h2, hs, hm]
    | ok master =>
      cases ha : self.bchjs.derivePath master (accountPath walletInfo) with
      | error e =>
        have hd : derivedNode self.bchjs walletInfo index = .error e := by
          simp [derivedNode, hs, hm, ha, bind, Except.bind]
        rw [hd]; simp [changeAddrFromMnemonic, h1, h2, hs, hm, ha]
      | ok account =>
        cases hc : self.bchjs.derivePath account (changePath index) with
        | error e =>
          have hd : derivedNode self.bchjs walletInfo index = .error e := by
            simp [derivedNode, hs, hm, ha, hc, bind, Except.bind]
          rw [hd]; simp [changeAddrFromMnemonic, h1, h2, hs, hm, ha, hc]
        | ok change =>
          have hd : derivedNode self.bchjs walletInfo index = .ok change := by
            simp [derivedNode, hs, hm, ha, hc, bind, Except.bind]
          rw [hd]; simp [changeAddrFromMnemonic, h1, h2, hs, hm, ha, hc]

theorem changeAddrFromMnemonic_no_derivation (self : BCH Seed Node KeyPair Tx)
    (walletInfo : WalletInfo) (index : JsValue) (w : World)
    (h1 : truthy walletInfo.derivation = false) :
    changeAddrFromMnemonic self walletInfo index w =
      (.error (.error "walletInfo must have integer derivation value."),
        { console := w.console ++ [.text "Error in bch.js/changeAddrFromMnemonic()"] }) := by
  simp [changeAddrFromMnemonic, h1]

theorem changeAddrFromMnemonic_no_index (self : BCH Seed Node KeyPair Tx)
    (walletInfo : WalletInfo) (index : JsValue) (w : World)
    (h1 : truthy walletInfo.derivation = true)
    (h2 : (!truthy index && strictNeZero index) = true) :
    changeAddrFromMnemonic self walletInfo index w =
      (.error (.error "index must be a non-negative integer."),
        { console := w.console ++ [.text "Error in bch.js/changeAddrFromMnemonic()"] }) := by
  simp [changeAddrFromMnemonic, h1, h2]

theorem changeAddrFromMnemonic_fst (self : BCH Seed Node KeyPair Tx) (walletInfo : WalletInfo)
    (index : JsValue) (w : World) :
    (changeAddrFromMnemonic self walletInfo index w).1 =
      if truthy walletInfo.derivation = false then
        .error (.error "walletInfo must have integer derivation value.")
      else if (!truthy index && strictNeZero index) = true then
        .error (.error "index must be a non-negative integer.")
      else derivedNode self.bchjs walletInfo index := by
  by_cases h1 : truthy walletInfo.derivation = false
  · rw [changeAddrFromMnemonic_no_derivation self walletInfo index w h1]; simp [h1]
  · have h1t : truthy walletInfo.derivation = true := by simpa using h1
    by_cases h2 : (!truthy index && strictNeZero index) = true
    · rw [changeAddrFromMnemonic_no_index self walletInfo index w h1t h2]; simp [h1t, h2]
    · have h2f : (!truthy index && strictNeZero index) = false := by simpa using h2
      rw [changeAddrFromMnemonic_run self walletInfo index w h1t h2f, if_neg h1, if_neg h2]
      cases derivedNode self.bchjs walletInfo index <;> rfl

/-- C2: `changeAddrFromMnemonic` is deterministic.  Its result is the same in
every console state and whatever else the instance holds, a second call made
after the first returns what the first returned, and with a wallet
configuration that has a derivation value and an index that is given the result
is the node derived from the master node of the mnemonic along
`m/44'/<derivation>'/0'` and then `0/<index>`. -/
theorem changeAddrFromMnemonic_deterministic (self : BCH Seed Node KeyPair Tx)
    (walletInfo : WalletInfo) (index : JsValue) (bitbox : Option Bitbox) (w1 w2 : World) :
    (changeAddrFromMnemonic self walletInfo index w1).1
        = (changeAddrFromMnemonic { self with BITBOX := bitbox } walletInfo index w2).1 ∧
      (changeAddrFromMnemonic self walletInfo index
          (changeAddrFromMnemonic self walletInfo index w1).2).1
        = (changeAddrFromMnemonic self walletInfo index w1).1 ∧
      (truthy walletInfo.derivation = true →
        (truthy index = true ∨ index = .number (.int 0)) →
        (changeAddrFromMnemonic self walletInfo index w1).1
          = ((self.bchjs.toSeed walletInfo.mnemonic) >>= fun rootSeed =>
              (self.bchjs.fromSeed rootSeed) >>= fun masterHDNode =>
              (self.bchjs.derivePath masterHDNode
                ("m/44'/" ++ toJsString walletInfo.derivation ++ "'/0'")) >>= fun account =>
              self.bchjs.derivePath account ("0/" ++ toJsString index))) := by
  refine ⟨?_, ?_, ?_⟩
  · rw [changeAddrFromMnemonic_fst, changeAddrFromMnemonic_fst]
  · rw [changeAddrFromMnemonic_fst, changeAddrFromMnemonic_fst]
  · intro h1 h2
    have h2f : (!truthy index && strictNeZero index) = false := by
      rcases h2 with h2 | h2
      · simp [h2]
      · subst h2; decide
    rw [changeAddrFromMnemonic_fst]
    simp [h1, h2f, derivedNode, accountPath, changePath]

/-! ### Rendering an index is injective -/

theorem foldl_digit_shift (cs : List Char) : ∀ a : Nat,
    cs.foldl (fun acc c => 10 * acc + (c.toNat - 48)) a
      = a * 10 ^ cs.length + cs.foldl (fun acc c => 10 * acc + (c.toNat - 48)) 0 := by
  induction cs with
  | nil => intro a; simp
  | cons c cs ih =>
    intro a
    simp only [List.foldl_cons, List.length_cons]
    rw [ih (10 * a + (c.toNat - 48)), ih (10 * 0 + (c.toNat - 48))]
    ring

theorem digitsValue_cons (c : Char) (cs : List Char) :
    digitsValue (c :: cs) = (c.toNat - 48) * 10 ^ cs.length + digitsValue cs := by
  unfold digitsValue
  simp only [List.foldl_cons]
  rw [foldl_digit_shift cs (10 * 0 + (c.toNat - 48))]
  simp

theorem digit_char_value (d : Nat) (h : d < 10) : (Char.ofNat (48 + d)).toNat - 48 = d := by
  interval_cases d <;> rfl

theorem decimalDigits_value (f : Nat) : ∀ (n : Nat) (acc : List Char), n < f →
    digitsValue (decimalDigits f n acc) = n * 10 ^ acc.length + digitsValue acc := by
  induction f with
  | zero => intro n acc h; omega
  | succ f ih =>
    intro n acc h
    unfold decimalDigits
    have hd := digit_char_value (n % 10) (Nat.mod_lt n (by decide))
    by_cases h0 : n / 10 = 0
    · simp only [h0, if_true]
      rw [digitsValue_cons, hd]
      have : n % 10 = n := by omega
      rw [this]
    · simp only [h0, if_false]
      have hlt : n / 10 < f := by omega
      rw [ih (n / 10) _ hlt, digitsValue_cons, hd]
      simp only [List.length_cons]
      have hn : n = 10 * (n / 10) + n % 10 := (Nat.div_add_mod n 10).symm
      generalize n / 10 = q at *
      generalize n % 10 = r at *
      subst hn
      ring

theorem natToString_value (n : Nat) : digitsValue (natToString n).data = n := by
  unfold natToString
  simp only
  rw [decimalDigits_value (n + 1) n [] (Nat.lt_succ_self n)]
  simp [digitsValue]

theorem natToString_injective {i j : Nat} (h : natToString i = natToString j) : i = j := by
  have := congrArg (fun s => digitsValue s.data) h
  simpa [natToString_value] using this

theorem decimalDigits_mem (f : Nat) : ∀ (n : Nat) (acc : List Char) (ch : Char),
    ch ∈ decimalDigits f n acc → ch ∈ acc ∨ ∃ d, d < 10 ∧ ch = Char.ofNat (48 + d) := by
  induction f with
  | zero => intro n acc ch h; exact Or.inl h
  | succ f ih =>
    intro n acc ch h
    unfold decimalDigits at h
    have hcons : ∀ c, c ∈ Char.ofNat (48 + n % 10) :: acc →
        c ∈ acc ∨ ∃ d, d < 10 ∧ c = Char.ofNat (48 + d) := by
      intro c hc
      rcases List.mem_cons.mp hc with h1 | h1
      · exact Or.inr ⟨n % 10, Nat.mod_lt n (by decide), h1⟩
      · exact Or.inl h1
    by_cases h0 : n / 10 = 0
    · simp only [h0, if_true] at h
      exact hcons ch h
    · simp only [h0, if_false] at h
      rcases ih (n / 10) _ ch h with h1 | h1
      · exact hcons ch h1
      · exact Or.inr h1

theorem digit_char_ne_e (d : Nat) (h : d < 10) : Char.ofNat (48 + d) ≠ 'e' := by
  interval_cases d <;> decide

theorem digit_char_ne_point (d : Nat) (h : d < 10) : Char.ofNat (48 + d) ≠ '.' := by
  interval_cases d <;> decide

theorem decimalDigits_no_e (f n : Nat) : 'e' ∉ decimalDigits f n [] := by
  intro h
  rcases decimalDigits_mem f n [] 'e' h with h1 | ⟨d, hd, h1⟩
  · simp at h1
  · exact digit_char_ne_e d hd h1.symm

theorem decimalDigits_no_point (f n : Nat) : '.' ∉ decimalDigits f n [] := by
  intro h
  rcases decimalDigits_mem f n [] '.' h with h1 | ⟨d, hd, h1⟩
  · simp at h1
  · exact digit_char_ne_point d hd h1.symm

theorem shortestCandidate_round {d L k c : Nat} (h : shortestCandidate d L k = some c) :
    roundSig c = d := by
  unfold shortestCandidate at h
  simp only at h
  split_ifs at h with h1 h2 h3 h4 h5 h6
  all_goals (cases h; assumption)

theorem shortestFrom_round (d L : Nat) (hd : roundSig d = d) :
    ∀ fuel k, roundSig (shortestFrom d L fuel k) = d := by
  intro fuel
  induction fuel with
  | zero => intro k; exact hd
  | succ fuel ih =>
    intro k
    unfold shortestFrom
    cases hc : shortestCandidate d L k with
    | none => exact ih (k + 1)
    | some c => exact shortestCandidate_round hc

theorem shortestDecimal_round {d : Nat} (hd : roundSig d = d) :
    roundSig (shortestDecimal d) = d :=
  shortestFrom_round d _ hd _ 1

theorem stripTrailingZeros_append (ds : List Char) :
    ds = stripTrailingZeros ds
      ++ List.replicate (ds.length - (stripTrailingZeros ds).length) '0' := by
  have hsplit := List.takeWhile_append_dropWhile (fun c => c == '0') ds.reverse
  have hzero : ds.reverse.takeWhile (fun c => c == '0')
      = List.replicate (ds.reverse.takeWhile (fun c => c == '0')).length '0' := by
    rw [List.eq_replicate_iff]
    refine ⟨rfl, ?_⟩
    intro c hc
    have := List.mem_takeWhile_imp hc
    simpa using this
  have hrev : ds = (ds.reverse.dropWhile (fun c => c == '0')).reverse
      ++ (ds.reverse.takeWhile (fun c => c == '0')).reverse := by
    have := congrArg List.reverse hsplit
    rw [List.reverse_append, List.reverse_reverse] at this
    exact this.symm
  have hlen : ds.length = (ds.reverse.dropWhile (fun c => c == '0')).length
      + (ds.reverse.takeWhile (fun c => c == '0')).length := by
    have := congrArg List.length hsplit
    rw [List.length_append, List.length_reverse] at this
    omega
  unfold stripTrailingZeros
  rw [List.length_reverse]
  have hk : ds.length - (ds.reverse.dropWhile (fun c => c == '0')).length
      = (ds.reverse.takeWhile (fun c => c == '0')).length := by omega
  rw [hk]
  conv_lhs => rw [hrev]
  rw [hzero, List.reverse_replicate, List.length_replicate]

theorem mantissa_injective {a b : List Char} (h : mantissa a = mantissa b) : a = b := by
  match a, b, h with
  | [], [], _ => rfl
  | [], [_], h => simp [mantissa] at h
  | [], _ :: _ :: _, h => simp [mantissa] at h
  | [_], [], h => simp [mantissa] at h
  | [x], [y], h => simpa [mantissa] using h
  | [_], _ :: _ :: _, h => simp [mantissa] at h
  | _ :: _ :: _, [], h => simp [mantissa] at h
  | _ :: _ :: _, [_], h => simp [mantissa] at h
  | x :: x2 :: xs, y :: y2 :: ys, h => simpa [mantissa] using h

theorem mantissa_no_e {a : List Char} (h : 'e' ∉ a) : 'e' ∉ mantissa a := by
  match a, h with
  | [], _ => simp [mantissa]
  | [x], h => simpa [mantissa] using h
  | x :: x2 :: xs, h =>
    simp only [mantissa, List.mem_cons, not_or] at h ⊢
    exact ⟨h.1, by decide, h.2.1, h.2.2⟩

theorem append_cons_split {α : Type} (e : α) : ∀ (l1 l2 r1 r2 : List α),
    e ∉ l1 → e ∉ l2 → l1 ++ e :: r1 = l2 ++ e :: r2 → l1 = l2 ∧ r1 = r2
  | [], [], _, _, _, _, h => by simpa using h
  | [], y :: l2, _, _, _, h2, h => by
    simp only [List.nil_append, List.cons_append, List.cons.injEq] at h
    exact absurd (List.mem_cons.mpr (Or.inl h.1)) h2
  | x :: l1, [], _, _, h1, _, h => by
    simp only [List.nil_append, List.cons_append, List.cons.injEq] at h
    exact absurd (List.mem_cons.mpr (Or.inl h.1.symm)) h1
  | x :: l1, y :: l2, r1, r2, h1, h2, h => by
    simp only [List.cons_append, List.cons.injEq] at h
    have ih := append_cons_split e l1 l2 r1 r2
      (fun hm => h1 (List.mem_cons_of_mem _ hm)) (fun hm => h2 (List.mem_cons_of_mem _ hm)) h.2
    exact ⟨by rw [h.1, ih.1], ih.2⟩

theorem decimalDigits_value_self (c : Nat) :
    digitsValue (decimalDigits (c + 1) c []) = c := by
  rw [decimalDigits_value (c + 1) c [] (Nat.lt_succ_self c)]
  simp [digitsValue]

theorem stripTrailingZeros_no_e {ds : List Char} (h : 'e' ∉ ds) :
    'e' ∉ stripTrailingZeros ds := by
  intro hx
  have happ := stripTrailingZeros_append ds
  have hmem : 'e' ∈ stripTrailingZeros ds
      ++ List.replicate (ds.length - (stripTrailingZeros ds).length) '0' :=
    List.mem_append_left _ hx
  rw [← happ] at hmem
  exact h hmem

theorem formatDecimal_plain_ne_exponent {c1 c2 : Nat} (h1 : c1 < 10 ^ 21)
    (h2 : ¬ c2 < 10 ^ 21) : formatDecimal c1 ≠ formatDecimal c2 := by
  intro h
  unfold formatDecimal at h
  simp only [h1, h2, if_true, if_false] at h
  have hd : decimalDigits (c1 + 1) c1 []
      = mantissa (stripTrailingZeros (decimalDigits (c2 + 1) c2 [])) ++ 'e' :: '+' ::
          (natToString ((decimalDigits (c2 + 1) c2 []).length - 1)).data :=
    congrArg String.data h
  have hmem : 'e' ∈ decimalDigits (c1 + 1) c1 [] := by
    rw [hd]
    exact List.mem_append_right _ (List.mem_cons_self _ _)
  exact decimalDigits_no_e _ _ hmem

theorem formatDecimal_injective {c1 c2 : Nat} (h : formatDecimal c1 = formatDecimal c2) :
    c1 = c2 := by
  by_cases h1 : c1 < 10 ^ 21
  · by_cases h2 : c2 < 10 ^ 21
    · unfold formatDecimal at h
      simp only [h1, h2, if_true] at h
      exact natToString_injective h
    · exact absurd h (formatDecimal_plain_ne_exponent h1 h2)
  · by_cases h2 : c2 < 10 ^ 21
    · exact absurd h.symm (formatDecimal_plain_ne_exponent h2 h1)
    · have hne : ∀ c : Nat, ¬ c < 10 ^ 21 → 1 ≤ (decimalDigits (c + 1) c []).length := by
        intro c hc
        have hv := decimalDigits_value_self c
        cases hds : decimalDigits (c + 1) c [] with
        | nil =>
          rw [hds] at hv
          simp [digitsValue] at hv
          rw [← hv] at hc
          exact absurd (by positivity) hc
        | cons x xs => simp
      unfold formatDecimal at h
      simp only [h1, h2, if_false] at h
      have hd : mantissa (stripTrailingZeros (decimalDigits (c1 + 1) c1 [])) ++ 'e' :: '+' ::
            (natToString ((decimalDigits (c1 + 1) c1 []).length - 1)).data
          = mantissa (stripTrailingZeros (decimalDigits (c2 + 1) c2 [])) ++ 'e' :: '+' ::
            (natToString ((decimalDigits (c2 + 1) c2 []).length - 1)).data :=
        congrArg String.data h
      obtain ⟨hm, hx⟩ := append_cons_split 'e' _ _ _ _
        (mantissa_no_e (stripTrailingZeros_no_e (decimalDigits_no_e _ _)))
        (mantissa_no_e (stripTrailingZeros_no_e (decimalDigits_no_e _ _))) hd
      have hstrip := mantissa_injective hm
      have hlen1 : (decimalDigits (c1 + 1) c1 []).length - 1
          = (decimalDigits (c2 + 1) c2 []).length - 1 := by
        have hx2 : (natToString ((decimalDigits (c1 + 1) c1 []).length - 1)).data
            = (natToString ((decimalDigits (c2 + 1) c2 []).length - 1)).data := by
          simpa using hx
        exact natToString_injective (String.ext hx2)
      have hlen : (decimalDigits (c1 + 1) c1 []).length
          = (decimalDigits (c2 + 1) c2 []).length := by
        have := hne c1 h1
        have := hne c2 h2
        omega
      have hds : decimalDigits (c1 + 1) c1 [] = decimalDigits (c2 + 1) c2 [] := by
        rw [stripTrailingZeros_append (decimalDigits (c1 + 1) c1 []),
          stripTrailingZeros_append (decimalDigits (c2 + 1) c2 []), hstrip, hlen]
      have := congrArg digitsValue hds
      rwa [decimalDigits_value_self, decimalDigits_value_self] at this

theorem doubleToString_eq_format (d : Nat) :
    doubleToString d = formatDecimal (if d ≤ 2 ^ 53 then d else shortestDecimal d) := by
  unfold doubleToString
  by_cases h : d ≤ 2 ^ 53
  · have hlt : d < 10 ^ 21 := by
      have : (2 : Nat) ^ 53 < 10 ^ 21 := by decide
      omega
    rw [if_pos h, if_pos h]
    unfold formatDecimal
    rw [if_pos hlt]
  · rw [if_neg h, if_neg h]

theorem doubleToString_injective {i j : Nat} (hi : roundSig i = i) (hj : roundSig j = j)
    (h : doubleToString i = doubleToString j) : i = j := by
  rw [doubleToString_eq_format, doubleToString_eq_format] at h
  have hc := formatDecimal_injective h
  have hri : roundSig (if i ≤ 2 ^ 53 then i else shortestDecimal i) = i := by
    split_ifs
    · exact hi
    · exact shortestDecimal_round hi
  have hrj : roundSig (if j ≤ 2 ^ 53 then j else shortestDecimal j) = j := by
    split_ifs
    · exact hj
    · exact shortestDecimal_round hj
  rw [← hri, ← hrj, hc]

theorem changePath_nat (i : Nat) :
    changePath (.number (.int (i : Int))) = "0/" ++ doubleToString i := by
  simp [changePath, toJsString, numToString]

theorem changePath_nat_injective {i j : Nat} (hi : roundSig i = i) (hj : roundSig j = j)
    (h : changePath (.number (.int (i : Int))) = changePath (.number (.int (j : Int)))) :
    i = j := by
  rw [changePath_nat, changePath_nat] at h
  have hd := congrArg String.data h
  simp only [String.data_append] at hd
  have hs : doubleToString i = doubleToString j := String.ext (List.append_cancel_left hd)
  exact doubleToString_injective hi hj hs

theorem roundSig_of_ofNat {n : Nat} (h : ofNat n = .int (n : Int)) : roundSig n = n := by
  unfold ofNat at h
  split_ifs at h
  simp only [JsNum.int.injEq] at h
  exact_mod_cast h

theorem derivedNode_ok {lib : BchJs Seed Node KeyPair Tx} {walletInfo : WalletInfo}
    {index : JsValue} {n : Node} (h : derivedNode lib walletInfo index = .ok n) :
    ∃ seed master account, lib.toSeed walletInfo.mnemonic = .ok seed ∧
      lib.fromSeed seed = .ok master ∧
      lib.derivePath master (accountPath walletInfo) = .ok account ∧
      lib.derivePath account (changePath index) = .ok n := by
  unfold derivedNode at h
  cases hs : lib.toSeed walletInfo.mnemonic with
  | error e => simp [hs, bind, Except.bind] at h
  | ok seed =>
    cases hm : lib.fromSeed seed with
    | error e => simp [hs, hm, bind, Except.bind] at h
    | ok master =>
      cases ha : lib.derivePath master (accountPath walletInfo) with
      | error e => simp [hs, hm, ha, bind, Except.bind] at h
      | ok account =>
        refine ⟨seed, master, account, rfl, hm, ha, ?_⟩
        simpa [hs, hm, ha, bind, Except.bind] using h

theorem changeAddrFromMnemonic_ok {self : BCH Seed Node KeyPair Tx} {walletInfo : WalletInfo}
    {index : JsValue} {w : World} {n : Node}
    (h : (changeAddrFromMnemonic self walletInfo index w).1 = .ok n) :
    derivedNode self.bchjs walletInfo index = .ok n := by
  rw [changeAddrFromMnemonic_fst] at h
  split_ifs at h
  exact h

theorem changeAddrFromMnemonic_ok_checks {self : BCH Seed Node KeyPair Tx}
    {walletInfo : WalletInfo} {index : JsValue} {w : World} {n : Node}
    (h : (changeAddrFromMnemonic self walletInfo index w).1 = .ok n) :
    truthy walletInfo.derivation = true ∧ (!truthy index && strictNeZero index) = false := by
  rw [changeAddrFromMnemonic_fst] at h
  split_ifs at h with h1 h2
  exact ⟨by simpa using h1, by simpa using h2⟩

/-- C3: for two distinct non-negative integer indices `i` and `j` (JavaScript
numbers, that is integers that are binary64 numbers), the paths that
`changeAddrFromMnemonic` derives along, `0/` followed by the index as a template
string renders it, differ; up to `2 ^ 53` the rendering is the exact digits of
the index.  And when deriving along a path is injective up to the address of
the derived node, the nodes returned for `i` and for `j` have different
addresses. -/
theorem changeAddrFromMnemonic_distinct_index (self : BCH Seed Node KeyPair Tx)
    (walletInfo : WalletInfo) (i j : Nat)
    (hi : ofNat i = .int (i : Int)) (hj : ofNat j = .int (j : Int)) (hij : i ≠ j) :
    changePath (.number (.int (i : Int))) = "0/" ++ doubleToString i ∧
      changePath (.number (.int (j : Int))) = "0/" ++ doubleToString j ∧
      (i ≤ 2 ^ 53 → changePath (.number (.int (i : Int))) = "0/" ++ natToString i) ∧
      changePath (.number (.int (i : Int))) ≠ changePath (.number (.int (j : Int))) ∧
      ∀ (addressOf : Node → String) (w1 w2 : World) (ni nj : Node),
        (∀ account path1 path2 n1 n2, self.bchjs.derivePath account path1 = .ok n1 →
          self.bchjs.derivePath account path2 = .ok n2 → addressOf n1 = addressOf n2 →
          path1 = path2) →
        (changeAddrFromMnemonic self walletInfo (.number (.int (i : Int))) w1).1 = .ok ni →
        (changeAddrFromMnemonic self walletInfo (.number (.int (j : Int))) w2).1 = .ok nj →
        addressOf ni ≠ addressOf nj := by
  have hri := roundSig_of_ofNat hi
  have hrj := roundSig_of_ofNat hj
  refine ⟨changePath_nat i, changePath_nat j, ?_,
    fun h => hij (changePath_nat_injective hri hrj h), ?_⟩
  · intro hle
    rw [changePath_nat]
    unfold doubleToString
    rw [if_pos hle]
  intro addressOf w1 w2 ni nj hinj h1 h2 heq
  obtain ⟨s1, m1, a1, hs1, hm1, ha1, hc1⟩ := derivedNode_ok (changeAddrFromMnemonic_ok h1)
  obtain ⟨s2, m2, a2, hs2, hm2, ha2, hc2⟩ := derivedNode_ok (changeAddrFromMnemonic_ok h2)
  rw [hs1] at hs2
  cases hs2
  rw [hm1] at hm2
  cases hm2
  rw [ha1] at ha2
  cases ha2
  exact hij (changePath_nat_injective hri hrj (hinj a1 _ _ ni nj hc1 hc2 heq))

theorem demoLib_derivePath_injective (account path1 path2 n1 n2 : String)
    (h1 : demoLib.derivePath account path1 = .ok n1)
    (h2 : demoLib.derivePath account path2 = .ok n2) (h : n1 = n2) : path1 = path2 := by
  simp only [demoLib, Except.ok.injEq] at h1 h2
  subst h1 h2
  have hd := congrArg String.data h
  simp only [String.data_append] at hd
  exact String.ext (List.append_cancel_left hd)

/-- An instance of `changeAddrFromMnemonic_distinct_index`: the indices 0 and
1 on the demonstration wallet, the address of a node being the node's text;
and the paths of the neighbouring doubles `2 ^ 55` and `2 ^ 55 + 8`, which a
template string renders with 16 significant digits. -/
theorem changeAddrFromMnemonic_distinct_index_witness :
    changePath (.number (.int ((0 : Nat) : Int))) = "0/" ++ natToString 0 ∧
      (changeAddrFromMnemonic demoBch demoWallet (.number (.int ((0 : Nat) : Int)))
          emptyWorld).1 = .ok "abandon ability m/44'/145'/0' 0/0" ∧
      (changeAddrFromMnemonic demoBch demoWallet (.number (.int ((1 : Nat) : Int)))
          emptyWorld).1 = .ok "abandon ability m/44'/145'/0' 0/1" ∧
      (id "abandon ability m/44'/145'/0' 0/0" : String)
        ≠ id "abandon ability m/44'/145'/0' 0/1" ∧
      changePath (.number (.int ((36028797018963968 : Nat) : Int))) = "0/36028797018963970" ∧
      changePath (.number (.int ((36028797018963976 : Nat) : Int))) = "0/36028797018963976" ∧
      changePath (.number (.int ((36028797018963968 : Nat) : Int)))
        ≠ changePath (.number (.int ((36028797018963976 : Nat) : Int))) :=
  ⟨(changeAddrFromMnemonic_distinct_index demoBch demoWallet 0 1 (by decide) (by decide)
      (by decide)).2.2.1 (by decide),
    by decide, by decide,
    (changeAddrFromMnemonic_distinct_index demoBch demoWallet 0 1 (by decide) (by decide)
      (by decide)).2.2.2.2
      id emptyWorld emptyWorld _ _
      (fun account path1 path2 n1 n2 h1 h2 h =>
        demoLib_derivePath_injective account path1 path2 n1 n2 h1 h2 h)
      (by decide) (by decide),
    by decide, by decide,
    (changeAddrFromMnemonic_distinct_index demoBch demoWallet 36028797018963968
      36028797018963976 (by decide) (by decide) (by decide)).2.2.2.1⟩

/-- C4 (the code at the failing input): with a wallet configuration that has
a derivation value, the index -1 passes the check of line 76: no
'index must be a non-negative integer.' error is thrown, and the result is
whatever the library derives (or throws) along the path made of `0/` and
`-1`.  The check
rejects `undefined` and `null` only among these. -/
theorem changeAddrFromMnemonic_negative_index (self : BCH Seed Node KeyPair Tx)
    (walletInfo : WalletInfo) (w : World) (h : truthy walletInfo.derivation = true) :
    changePath (.number (.int (-1))) = "0/-1" ∧
      (changeAddrFromMnemonic self walletInfo (.number (.int (-1))) w).1
        = derivedNode self.bchjs walletInfo (.number (.int (-1))) ∧
      (changeAddrFromMnemonic self walletInfo (.string "abc") w).1
        = derivedNode self.bchjs walletInfo (.string "abc") ∧
      (changeAddrFromMnemonic self walletInfo .undefined w).1
        = .error (.error "index must be a non-negative integer.") ∧
      (changeAddrFromMnemonic self walletInfo .null w).1
        = .error (.error "index must be a non-negative integer.") := by
  have e1 : (!truthy (.number (.int (-1))) && strictNeZero (.number (.int (-1)))) = false := by
    decide
  have e2 : (!truthy (.string "abc") && strictNeZero (.string "abc")) = false := by decide
  have e3 : (!truthy .undefined && strictNeZero .undefined) = true := by decide
  have e4 : (!truthy .null && strictNeZero .null) = true := by decide
  refine ⟨by decide, ?_, ?_, ?_, ?_⟩
  · rw [changeAddrFromMnemonic_fst, e1]; simp [h]
  · rw [changeAddrFromMnemonic_fst, e2]; simp [h]
  · rw [changeAddrFromMnemonic_fst, e3]; simp [h]
  · rw [changeAddrFromMnemonic_fst, e4]; simp [h]

/-- An instance of `changeAddrFromMnemonic_negative_index`: on the
demonstration wallet the index -1 yields a node. -/
theorem changeAddrFromMnemonic_negative_index_witness :
    (changeAddrFromMnemonic demoBch demoWallet (.number (.int (-1))) emptyWorld).1
      = .ok "abandon ability m/44'/145'/0' 0/-1" :=
  ((changeAddrFromMnemonic_negative_index demoBch demoWallet emptyWorld (by decide)).2.1).trans
    (by decide)

/-! ## `sendAllAddr` -/

theorem getUtxos_ok (self : BCH Seed Node KeyPair Tx) (addr a : String)
    (response : UtxoResponse) (w : World) (ha : self.bchjs.toCashAddress addr = .ok a)
    (hu : self.bchjs.blockbookUtxo a = .ok response) :
    getUtxos self addr w = (.ok response, w) := by
  simp [getUtxos, ha, hu]

theorem jsAdd_int_of_le {a b : Nat} (h : a + b ≤ 2 ^ 53) :
    jsAdd (.int (a : Int)) (.int (b : Int)) = .int ((a + b : Nat) : Int) := by
  have h0 : (0 : Int) ≤ (a : Int) + (b : Int) := by omega
  have ht : ((a : Int) + (b : Int)).toNat = a + b := by omega
  simp only [jsAdd, ofInt, h0, if_true, ht]
  rw [ofNat_of_le h]

theorem foldl_jsAdd_exact (utxos : List Utxo) : ∀ a : Nat,
    a + (utxos.map Utxo.satoshis).sum ≤ 2 ^ 53 →
    utxos.foldl (fun acc u => jsAdd acc (.int (u.satoshis : Int))) (.int (a : Int))
      = .int ((a + (utxos.map Utxo.satoshis).sum : Nat) : Int) := by
  induction utxos with
  | nil => intro a _; simp
  | cons u rest ih =>
    intro a h
    simp only [List.map_cons, List.sum_cons] at h
    simp only [List.foldl_cons, List.map_cons, List.sum_cons]
    rw [jsAdd_int_of_le (by omega), ih (a + u.satoshis) (by omega)]
    congr 2
    omega

theorem addAllInputs_ok (lib : BchJs Seed Node KeyPair Tx)
    (hacc : ∀ tb txid vout, lib.acceptsInput tb txid vout = .ok ()) (utxos : List Utxo) :
    ∀ (amount : JsNum) (tb : TransactionBuilder KeyPair) (w : World),
      addAllInputs lib utxos amount tb w
        = (.ok (utxos.foldl (fun acc u => jsAdd acc (.int (u.satoshis : Int))) amount,
                { tb with inputs := tb.inputs ++ utxos.map fun u => (u.txid, u.vout) }), w) := by
  induction utxos with
  | nil => intro amount tb w; simp [addAllInputs]
  | cons u rest ih =>
    intro amount tb w
    simp [addAllInputs, addInput, hacc, ih]

theorem signAllInputs_ok (self : BCH Seed Node KeyPair Tx) (walletInfo : WalletInfo)
    (hdIndex : JsValue) (change : Node) (keyPair : KeyPair)
    (h1 : truthy walletInfo.derivation = true)
    (h2 : (!truthy hdIndex && strictNeZero hdIndex) = false)
    (hd : derivedNode self.bchjs walletInfo hdIndex = .ok change)
    (hk : self.bchjs.toKeyPair change = .ok keyPair)
    (hacc : ∀ tb i kp amount, self.bchjs.acceptsSign tb i kp amount = .ok ())
    (utxos : List Utxo) :
    ∀ (i : Nat) (tb : TransactionBuilder KeyPair) (w : World),
      signAllInputs self walletInfo hdIndex utxos i tb w
        = (.ok { tb with signatures := tb.signatures ++
                  (utxos.enumFrom i).map fun p => (p.1, keyPair, p.2.satoshis) }, w) := by
  induction utxos with
  | nil => intro i tb w; simp [signAllInputs]
  | cons u rest ih =>
    intro i tb w
    have hc := changeAddrFromMnemonic_run self walletInfo hdIndex w h1 h2
    rw [hd] at hc
    simp [signAllInputs, sign, hc, hk, hacc, ih]

theorem sendAllAddrBuilder_ok (self : BCH Seed Node KeyPair Tx) (walletInfo : WalletInfo)
    (fromAddr : String) (hdIndex : JsValue) (toAddr : String) (w : World)
    (a legacy : String) (utxos : List Utxo) (bitbox : Bitbox) (change : Node)
    (keyPair : KeyPair)
    (ha : self.bchjs.toCashAddress fromAddr = .ok a)
    (hu : self.bchjs.blockbookUtxo a = .ok (.array utxos))
    (hne : utxos ≠ [])
    (hin : ∀ tb txid vout, self.bchjs.acceptsInput tb txid vout = .ok ())
    (hlo : 1 ≤ (utxos.map Utxo.satoshis).sum)
    (hhi : (utxos.map Utxo.satoshis).sum ≤ 2 ^ 53)
    (hb : self.BITBOX = some bitbox)
    (hl : self.bchjs.toLegacyAddress toAddr = .ok legacy)
    (hout : ∀ tb address amount, self.bchjs.acceptsOutput tb address amount = .ok ())
    (h1 : truthy walletInfo.derivation = true)
    (h2 : (!truthy hdIndex && strictNeZero hdIndex) = false)
    (hd : derivedNode self.bchjs walletInfo hdIndex = .ok change)
    (hk : self.bchjs.toKeyPair change = .ok keyPair)
    (hsig : ∀ tb i kp amount, self.bchjs.acceptsSign tb i kp amount = .ok ()) :
    sendAllAddrBuilder self walletInfo fromAddr hdIndex toAddr w
      = (.ok { inputs := utxos.map fun u => (u.txid, u.vout),
               outputs := [(legacy, jsSub (.int (((utxos.map Utxo.satoshis).sum : Nat) : Int))
                 (ceilOnePointOneTimes (bitbox.getByteCount utxos.length 1)))],
               signatures := (utxos.enumFrom 0).map fun p => (p.1, keyPair, p.2.satoshis) },
          { console := w.console ++ [.utxos (.array utxos)] }) := by
  have hlen : ¬ utxos.length = 0 := by
    intro h0
    exact hne (List.length_eq_zero.mp h0)
  have hsum := foldl_jsAdd_exact utxos 0 (by omega)
  simp only [Nat.zero_add, Nat.cast_zero] at hsum
  have hlt : jsLt (.int (((utxos.map Utxo.satoshis).sum : Nat) : Int)) (.int 1) = false := by
    simp only [jsLt, decide_eq_false_iff_not]
    omega
  unfold sendAllAddrBuilder
  simp only [run_bind, run_consoleLog, run_pure, run_call, run_throw,
    getUtxos_ok self fromAddr a (.array utxos) w ha hu, hlen, if_false,
    addAllInputs_ok self.bchjs hin, hsum, hlt, hb, hl, addOutput, hout,
    signAllInputs_ok self walletInfo hdIndex change keyPair h1 h2 hd hk hsig,
    newTransactionBuilder, List.nil_append, Bool.false_eq_true]

/-- C6 (the code at the failing input): `sendAllAddr` never compares `fromAddr`
with the address of the node derived at `hdIndex`.  On an instance that has a
`BITBOX`, when the indexer lists utxos worth 1 satoshi or more for `fromAddr`
and the library accepts every call, `sendAllAddr` returns the hex of a
transaction although the address `addressOf change` of the node derived at
`hdIndex` is not `fromAddr`. -/
theorem sendAllAddr_no_address_check (self : BCH Seed Node KeyPair Tx)
    (walletInfo : WalletInfo) (fromAddr : String) (hdIndex : JsValue) (toAddr : String)
    (w : World) (a legacy : String) (utxos : List Utxo) (bitbox : Bitbox) (change : Node)
    (keyPair : KeyPair) (addressOf : Node → String)
    (ha : self.bchjs.toCashAddress fromAddr = .ok a)
    (hu : self.bchjs.blockbookUtxo a = .ok (.array utxos))
    (hne : utxos ≠ [])
    (hin : ∀ tb txid vout, self.bchjs.acceptsInput tb txid vout = .ok ())
    (hlo : 1 ≤ (utxos.map Utxo.satoshis).sum)
    (hhi : (utxos.map Utxo.satoshis).sum ≤ 2 ^ 53)
    (hb : self.BITBOX = some bitbox)
    (hl : self.bchjs.toLegacyAddress toAddr = .ok legacy)
    (hout : ∀ tb address amount, self.bchjs.acceptsOutput tb address amount = .ok ())
    (hd : (changeAddrFromMnemonic self walletInfo hdIndex w).1 = .ok change)
    (hk : self.bchjs.toKeyPair change = .ok keyPair)
    (hsig : ∀ tb i kp amount, self.bchjs.acceptsSign tb i kp amount = .ok ())
    (hbuild : ∀ tb, ∃ tx, self.bchjs.build tb = .ok tx)
    (hmismatch : addressOf change ≠ fromAddr) :
    addressOf change ≠ fromAddr ∧
      ∃ hex, sendAllAddr self walletInfo fromAddr hdIndex toAddr w
        = (.ok hex, { console := w.console ++ [.utxos (.array utxos)] }) := by
  refine ⟨hmismatch, ?_⟩
  have hbld := sendAllAddrBuilder_ok self walletInfo fromAddr hdIndex toAddr w a legacy utxos
    bitbox change keyPair ha hu hne hin hlo hhi hb hl hout
    (changeAddrFromMnemonic_ok_checks hd).1 (changeAddrFromMnemonic_ok_checks hd).2
    (changeAddrFromMnemonic_ok hd) hk hsig
  obtain ⟨tx, htx⟩ := hbuild
    { inputs := utxos.map fun u => (u.txid, u.vout),
      outputs := [(legacy, jsSub (.int (((utxos.map Utxo.satoshis).sum : Nat) : Int))
        (ceilOnePointOneTimes (bitbox.getByteCount utxos.length 1)))],
      signatures := (utxos.enumFrom 0).map fun p => (p.1, keyPair, p.2.satoshis) }
  refine ⟨self.bchjs.toHex tx, ?_⟩
  simp only [sendAllAddr, run_tryCatch, run_bind, run_call, run_monadLift, run_pure, hbld, htx]

/-- An instance of `sendAllAddr_no_address_check`: the node derived at index 0
of the demonstration wallet is not the address the funds are taken from, and a
transaction comes back. -/
theorem sendAllAddr_no_address_check_witness :
    (id "abandon ability m/44'/145'/0' 0/0" : String) ≠ "someone else" ∧
      ∃ hex, sendAllAddr demoBchWithBitbox demoWallet "someone else" (.number (.int 0)) "dest"
          emptyWorld
        = (.ok hex, { console := emptyWorld.console ++
            [.utxos (.array [{ txid := some "aa", vout := some 0, satoshis := 1000 }])] }) :=
  sendAllAddr_no_address_check demoBchWithBitbox demoWallet "someone else" (.number (.int 0))
    "dest" emptyWorld "someone else" "dest"
    [{ txid := some "aa", vout := some 0, satoshis := 1000 }] demoBitbox
    "abandon ability m/44'/145'/0' 0/0" "abandon ability m/44'/145'/0' 0/0" id
    (by decide) (by decide) (by decide) (fun _ _ _ => rfl) (by decide) (by decide) rfl
    (by decide) (fun _ _ _ => rfl) (by decide) (by decide)
    (fun _ _ _ _ => rfl) (fun tb => ⟨_, rfl⟩) (by decide)

/-- C7 (the code at the failing input): on an instance made by the
constructor, which sets no `BITBOX`, for a `fromAddr` whose utxo list is a
non-empty array worth 1 satoshi or more (and at most `2 ^ 53`), with every
input accepted, `sendAllAddr` throws a `TypeError` at the fee computation and
returns no hex. -/
theorem sendAllAddr_constructed_throws (lib : BchJs Seed Node KeyPair Tx)
    (walletInfo : WalletInfo) (fromAddr : String) (hdIndex : JsValue) (toAddr : String)
    (w : World) (a : String) (utxos : List Utxo)
    (ha : lib.toCashAddress fromAddr = .ok a)
    (hu : lib.blockbookUtxo a = .ok (.array utxos))
    (hne : utxos ≠ [])
    (hin : ∀ tb txid vout, lib.acceptsInput tb txid vout = .ok ())
    (hlo : 1 ≤ (utxos.map Utxo.satoshis).sum)
    (hhi : (utxos.map Utxo.satoshis).sum ≤ 2 ^ 53) :
    sendAllAddr (BCH.new lib) walletInfo fromAddr hdIndex toAddr w
      = (.error (.typeError "Cannot read property 'BitcoinCash' of undefined"),
          { console := w.console ++ [.utxos (.array utxos),
              .text "Error in bch.js/sendAllAddr()"] }) := by
  have hlen : ¬ utxos.length = 0 := by
    intro h0
    exact hne (List.length_eq_zero.mp h0)
  have hsum := foldl_jsAdd_exact utxos 0 (by omega)
  simp only [Nat.zero_add, Nat.cast_zero] at hsum
  have hlt : jsLt (.int (((utxos.map Utxo.satoshis).sum : Nat) : Int)) (.int 1) = false := by
    simp only [jsLt, decide_eq_false_iff_not]
    omega
  have hg : getUtxos (BCH.new lib) fromAddr w = (.ok (.array utxos), w) :=
    getUtxos_ok (BCH.new lib) fromAddr a (.array utxos) w ha hu
  have hadd := addAllInputs_ok (BCH.new lib).bchjs hin utxos
  have hbld : sendAllAddrBuilder (BCH.new lib) walletInfo fromAddr hdIndex toAddr w
      = (.error (.typeError "Cannot read property 'BitcoinCash' of undefined"),
          { console := w.console ++ [.utxos (.array utxos)] }) := by
    unfold sendAllAddrBuilder
    simp only [run_bind, run_consoleLog, run_pure, run_throw, hg, hlen, if_false, hadd, hsum,
      hlt, Bool.false_eq_true]
    rfl
  simp [sendAllAddr, hbld]

/-- An instance of `sendAllAddr_constructed_throws`: one utxo of 1000 satoshis. -/
theorem sendAllAddr_constructed_throws_witness :
    sendAllAddr demoBch demoWallet "addr" (.number (.int 0)) "dest" emptyWorld
      = (.error (.typeError "Cannot read property 'BitcoinCash' of undefined"),
          { console := emptyWorld.console ++
              [.utxos (.array [{ txid := some "aa", vout := some 0, satoshis := 1000 }]),
               .text "Error in bch.js/sendAllAddr()"] }) :=
  sendAllAddr_constructed_throws demoLib demoWallet "addr" (.number (.int 0)) "dest" emptyWorld
    "addr" [{ txid := some "aa", vout := some 0, satoshis := 1000 }]
    (by decide) (by decide) (by decide) (fun _ _ _ => rfl) (by decide) (by decide)

/-- C8 (the code at the failing input): the fee `sendAllAddr` subtracts is
`Math.ceil(1.1 * byteCount)`, not `byteCount`: the amount of the single output
is the original amount minus `Math.ceil(1.1 * byteCount)`, where `byteCount` is
what `getByteCount` gives for `utxos.length` P2PKH inputs and one P2PKH output. -/
theorem sendAllAddr_fee (self : BCH Seed Node KeyPair Tx)
    (walletInfo : WalletInfo) (fromAddr : String) (hdIndex : JsValue) (toAddr : String)
    (w : World) (a legacy : String) (utxos : List Utxo) (bitbox : Bitbox) (change : Node)
    (keyPair : KeyPair)
    (ha : self.bchjs.toCashAddress fromAddr = .ok a)
    (hu : self.bchjs.blockbookUtxo a = .ok (.array utxos))
    (hne : utxos ≠ [])
    (hin : ∀ tb txid vout, self.bchjs.acceptsInput tb txid vout = .ok ())
    (hlo : 1 ≤ (utxos.map Utxo.satoshis).sum)
    (hhi : (utxos.map Utxo.satoshis).sum ≤ 2 ^ 53)
    (hb : self.BITBOX = some bitbox)
    (hl : self.bchjs.toLegacyAddress toAddr = .ok legacy)
    (hout : ∀ tb address amount, self.bchjs.acceptsOutput tb address amount = .ok ())
    (h1 : truthy walletInfo.derivation = true)
    (h2 : (!truthy hdIndex && strictNeZero hdIndex) = false)
    (hd : derivedNode self.bchjs walletInfo hdIndex = .ok change)
    (hk : self.bchjs.toKeyPair change = .ok keyPair)
    (hsig : ∀ tb i kp amount, self.bchjs.acceptsSign tb i kp amount = .ok ()) :
    (sendAllAddrBuilder self walletInfo fromAddr hdIndex toAddr w).1.map
        (fun tb => tb.outputs)
      = .ok [(legacy, jsSub (.int (((utxos.map Utxo.satoshis).sum : Nat) : Int))
          (ceilOnePointOneTimes (bitbox.getByteCount utxos.length 1)))] := by
  rw [sendAllAddrBuilder_ok self walletInfo fromAddr hdIndex toAddr w a legacy utxos
    bitbox change keyPair ha hu hne hin hlo hhi hb hl hout h1 h2 hd hk hsig]
  rfl

/-- An instance of `sendAllAddr_fee`: one utxo of 1000 satoshis makes a
transaction of 192 bytes; the output is 788 = 1000 - 212, not 808 = 1000 - 192. -/
theorem sendAllAddr_fee_witness :
    demoBitbox.getByteCount 1 1 = 192 ∧
      jsSub (.int 1000) (ceilOnePointOneTimes 192) = .int 788 ∧
      (sendAllAddrBuilder demoBchWithBitbox demoWallet "addr" (.number (.int 0)) "dest"
          emptyWorld).1.map (fun tb => tb.outputs)
        = .ok [("dest", jsSub (.int 1000) (ceilOnePointOneTimes 192))] :=
  ⟨by decide, by decide,
    sendAllAddr_fee demoBchWithBitbox demoWallet "addr" (.number (.int 0)) "dest" emptyWorld
      "addr" "dest" [{ txid := some "aa", vout := some 0, satoshis := 1000 }] demoBitbox
      "abandon ability m/44'/145'/0' 0/0" "abandon ability m/44'/145'/0' 0/0"
      (by decide) (by decide) (by decide) (fun _ _ _ => rfl) (by decide) (by decide) rfl
      (by decide) (fun _ _ _ => rfl) (by decide) (by decide) (by decide) (by decide)
      (fun _ _ _ _ => rfl)⟩

/-! ## Issuing a token -/

theorem refundFor_nonneg (cfg : Tiers) (user : User) (now : Nat) :
    0 ≤ refundFor cfg user now := by
  unfold refundFor
  split
  · split
    · exact le_refl 0
    · exact le_max_left _ _
  · exact le_refl 0

theorem refundFor_of_inactive (cfg : Tiers) (user : User) (now : Nat)
    (h : hasActiveToken user now = false) : refundFor cfg user now = 0 := by
  simp [refundFor, h]

/-- C10: for a user whose credit is at least the price of the requested tier,
`issue` succeeds and returns a token, which becomes the user's token at the
requested tier, and the credit stored afterwards is the credit before, plus
the refund for a superseded token, minus exactly the tier price. -/
theorem issue_debits_price (cfg : Tiers) (user : User) (tier : Nat) (now : Nat) (price : ℚ)
    (hp : priceOf cfg tier = some price) (hc : price ≤ user.credit) :
    ∃ token, (issue cfg user (tier : Int) now).1 = .ok token ∧
      (issue cfg user (tier : Int) now).2.apiToken = some token ∧
      (issue cfg user (tier : Int) now).2.apiLevel = tier ∧
      (issue cfg user (tier : Int) now).2.credit
        = user.credit + refundFor cfg user now - price := by
  have hneg : ¬ ((tier : Int) < 0) := by omega
  have hnn := refundFor_nonneg cfg user now
  unfold issue
  simp only [hneg, if_false, Int.toNat_ofNat, hp]
  cases ht : hasActiveToken user now with
  | true =>
    have hr : ¬ refundFor cfg user now < 0 := not_lt.mpr hnn
    have h4 : ¬ (0 < price ∧ user.credit + refundFor cfg user now < price) := by
      intro h
      linarith [h.2]
    have h5 : ¬ (user.credit + refundFor cfg user now < price) := by
      intro h
      linarith
    simp [creditUser, debitUser, hr, h4, h5]
  | false =>
    have h0 := refundFor_of_inactive cfg user now ht
    have h4 : ¬ (0 < price ∧ user.credit < price) := by
      intro h
      linarith [h.2]
    have h5 : ¬ (user.credit < price) := not_lt.mpr hc
    simp [debitUser, h4, h5, h0]

/-- An instance of `issue_debits_price`: credit 100, no token, tier 10 at
price 10; the credit stored afterwards is 90. -/
theorem issue_debits_price_witness :
    (∃ token, (issue demoTiers demoUser ((10 : Nat) : Int) 1000).1 = .ok token ∧
      (issue demoTiers demoUser ((10 : Nat) : Int) 1000).2.apiToken = some token ∧
      (issue demoTiers demoUser ((10 : Nat) : Int) 1000).2.apiLevel = 10 ∧
      (issue demoTiers demoUser ((10 : Nat) : Int) 1000).2.credit
        = demoUser.credit + refundFor demoTiers demoUser 1000 - 10) ∧
      demoUser.credit = 100 ∧ refundFor demoTiers demoUser 1000 = 0 ∧
      (100 : ℚ) + 0 - 10 = 90 :=
  ⟨issue_debits_price demoTiers demoUser 10 1000 10 (by decide)
      (by simp [demoUser]; norm_num),
    rfl, refundFor_of_inactive demoTiers demoUser 1000 (by decide), by norm_num⟩

/-! ## `sendAllAddr`: what a returned transaction holds -/

theorem getUtxos_fst_ok {self : BCH Seed Node KeyPair Tx} {addr : String}
    {response : UtxoResponse} {w : World} (h : (getUtxos self addr w).1 = .ok response) :
    getUtxos self addr w = (.ok response, w) ∧
      ∃ a, self.bchjs.toCashAddress addr = .ok a ∧
        self.bchjs.blockbookUtxo a = .ok response := by
  cases ha : self.bchjs.toCashAddress addr with
  | error e => simp [getUtxos, ha] at h
  | ok a =>
    cases hu : self.bchjs.blockbookUtxo a with
    | error e => simp [getUtxos, ha, hu] at h
    | ok r =>
      have hr : r = response := by simpa [getUtxos, ha, hu] using h
      subst hr
      exact ⟨getUtxos_ok self addr a r w ha hu, a, rfl, hu⟩

theorem addAllInputs_fst_ok (lib : BchJs Seed Node KeyPair Tx) (utxos : List Utxo) :
    ∀ (amount : JsNum) (tb : TransactionBuilder KeyPair) (w : World)
      (r : JsNum × TransactionBuilder KeyPair),
      (addAllInputs lib utxos amount tb w).1 = .ok r →
      addAllInputs lib utxos amount tb w = (.ok r, w) ∧
        r.1 = utxos.foldl (fun acc u => jsAdd acc (.int (u.satoshis : Int))) amount ∧
        r.2.inputs = tb.inputs ++ utxos.map (fun u => (u.txid, u.vout)) ∧
        r.2.outputs = tb.outputs ∧ r.2.signatures = tb.signatures := by
  induction utxos with
  | nil =>
    intro amount tb w r h
    have hr : (amount, tb) = r := by simpa [addAllInputs] using h
    subst hr
    simp [addAllInputs]
  | cons u rest ih =>
    intro amount tb w r h
    cases hacc : lib.acceptsInput tb u.txid u.vout with
    | error e => simp [addAllInputs, addInput, hacc] at h
    | ok _ =>
      have hstep : addAllInputs lib (u :: rest) amount tb w
          = addAllInputs lib rest (jsAdd amount (.int (u.satoshis : Int)))
              { tb with inputs := tb.inputs ++ [(u.txid, u.vout)] } w := by
        simp [addAllInputs, addInput, hacc]
      rw [hstep] at h ⊢
      obtain ⟨h1, h2, h3, h4, h5⟩ := ih _ _ w r h
      refine ⟨h1, ?_, ?_, h4, h5⟩
      · simpa using h2
      · simpa using h3

theorem signAllInputs_fst_ok (self : BCH Seed Node KeyPair Tx) (walletInfo : WalletInfo)
    (hdIndex : JsValue) (utxos : List Utxo) :
    ∀ (i : Nat) (tb tb1 : TransactionBuilder KeyPair) (w : World),
      (signAllInputs self walletInfo hdIndex utxos i tb w).1 = .ok tb1 →
      tb1.inputs = tb.inputs ∧ tb1.outputs = tb.outputs ∧
        tb1.signatures.length = tb.signatures.length + utxos.length := by
  induction utxos with
  | nil =>
    intro i tb tb1 w h
    have hr : tb = tb1 := by simpa [signAllInputs] using h
    subst hr
    simp
  | cons u rest ih =>
    intro i tb tb1 w h
    rcases hc : changeAddrFromMnemonic self walletInfo hdIndex w with ⟨e | change, w1⟩
    · simp [signAllInputs, hc] at h
    · cases hk : self.bchjs.toKeyPair change with
      | error e => simp [signAllInputs, hc, hk] at h
      | ok keyPair =>
        cases hs : self.bchjs.acceptsSign tb i keyPair u.satoshis with
        | error e => simp [signAllInputs, sign, hc, hk, hs] at h
        | ok _ =>
          have hstep : signAllInputs self walletInfo hdIndex (u :: rest) i tb w
              = signAllInputs self walletInfo hdIndex rest (i + 1)
                  { tb with signatures := tb.signatures ++ [(i, keyPair, u.satoshis)] } w1 := by
            simp [signAllInputs, sign, hc, hk, hs]
          rw [hstep] at h
          obtain ⟨h1, h2, h3⟩ := ih _ _ tb1 w1 h
          refine ⟨h1, h2, ?_⟩
          simp only [List.length_append, List.length_cons, List.length_nil] at h3 ⊢
          omega

theorem sendAllAddrBuilder_fst_ok {self : BCH Seed Node KeyPair Tx} {walletInfo : WalletInfo}
    {fromAddr : String} {hdIndex : JsValue} {toAddr : String} {w : World}
    {tb : TransactionBuilder KeyPair}
    (h : (sendAllAddrBuilder self walletInfo fromAddr hdIndex toAddr w).1 = .ok tb) :
    ∃ utxos bitbox legacy,
      (getUtxos self fromAddr w).1 = .ok (.array utxos) ∧ utxos ≠ [] ∧
      self.BITBOX = some bitbox ∧ self.bchjs.toLegacyAddress toAddr = .ok legacy ∧
      jsLt (utxos.foldl (fun acc u => jsAdd acc (.int (u.satoshis : Int))) (.int 0)) (.int 1)
        = false ∧
      tb.inputs = utxos.map (fun u => (u.txid, u.vout)) ∧
      tb.outputs = [(legacy,
        jsSub (utxos.foldl (fun acc u => jsAdd acc (.int (u.satoshis : Int))) (.int 0))
          (ceilOnePointOneTimes (bitbox.getByteCount utxos.length 1)))] ∧
      tb.signatures.length = utxos.length ∧
      ∃ tb0, self.bchjs.acceptsOutput tb0 legacy
        (jsSub (utxos.foldl (fun acc u => jsAdd acc (.int (u.satoshis : Int))) (.int 0))
          (ceilOnePointOneTimes (bitbox.getByteCount utxos.length 1))) = .ok () := by
  unfold sendAllAddrBuilder at h
  simp only [run_bind, run_consoleLog] at h
  rcases hg : getUtxos self fromAddr w with ⟨e | response, w1⟩
  · rw [hg] at h; simp at h
  · rw [hg] at h
    cases response with
    | other v => simp at h
    | array utxos =>
      simp only [] at h
      by_cases hl : utxos.length = 0
      · simp [hl] at h
      · simp only [hl, if_false, run_pure, run_bind] at h
        rcases ha : addAllInputs self.bchjs utxos (.int 0)
            (newTransactionBuilder : TransactionBuilder KeyPair)
            { console := w1.console ++ [.utxos (.array utxos)] } with ⟨e | r, w2⟩
        · rw [ha] at h; simp at h
        · rw [ha] at h
          obtain ⟨_, hamt, hin, hout, hsig⟩ := addAllInputs_fst_ok self.bchjs utxos _ _ _ r
            (by rw [ha])
          simp only [] at h
          cases hlt : jsLt r.1 (.int 1) with
          | true => simp [hlt] at h
          | false =>
            simp only [hlt, Bool.false_eq_true, if_false, run_pure, run_bind] at h
            cases hb : self.BITBOX with
            | none => simp [hb] at h
            | some bitbox =>
              simp only [hb] at h
              cases hleg : self.bchjs.toLegacyAddress toAddr with
              | error e => simp [hleg] at h
              | ok legacy =>
                cases hacc : self.bchjs.acceptsOutput r.2 legacy
                    (jsSub r.1 (ceilOnePointOneTimes (bitbox.getByteCount utxos.length 1))) with
                | error e => simp [hleg, addOutput, hacc] at h
                | ok _ =>
                  simp only [run_bind, run_call, hleg, addOutput, hacc, run_pure] at h
                  obtain ⟨h1, h2, h3⟩ := signAllInputs_fst_ok self walletInfo hdIndex utxos
                    0 _ tb _ h
                  refine ⟨utxos, bitbox, legacy, ?_, ?_, rfl, rfl, ?_, ?_, ?_, ?_, ?_⟩
                  · rfl
                  · intro h0; exact hl (by simp [h0])
                  · rw [← hamt]; exact hlt
                  · rw [h1]; simp [hin, newTransactionBuilder]
                  · rw [h2]; simp [hout, newTransactionBuilder, hamt]
                  · rw [h3]; simp [hsig, newTransactionBuilder]
                  · exact ⟨r.2, by rw [← hamt]; exact hacc⟩

theorem sendAllAddr_fst_ok {self : BCH Seed Node KeyPair Tx} {walletInfo : WalletInfo}
    {fromAddr : String} {hdIndex : JsValue} {toAddr : String} {w : World} {hex : String}
    (h : (sendAllAddr self walletInfo fromAddr hdIndex toAddr w).1 = .ok hex) :
    ∃ tb tx, (sendAllAddrBuilder self walletInfo fromAddr hdIndex toAddr w).1 = .ok tb ∧
      self.bchjs.build tb = .ok tx ∧ hex = self.bchjs.toHex tx := by
  unfold sendAllAddr at h
  simp only [run_tryCatch, run_bind] at h
  rcases hb : sendAllAddrBuilder self walletInfo fromAddr hdIndex toAddr w with ⟨e | tb, w1⟩
  · rw [hb] at h; simp at h
  · rw [hb] at h
    cases ht : self.bchjs.build tb with
    | error e => simp [ht] at h
    | ok tx =>
      refine ⟨tb, tx, rfl, ht, ?_⟩
      simpa [ht, eq_comm] using h

theorem foldl_jsAdd_zero (utxos : List Utxo) (h : (utxos.map Utxo.satoshis).sum < 1) :
    utxos.foldl (fun acc u => jsAdd acc (.int (u.satoshis : Int))) (.int 0) = .int 0 := by
  have h0 : (utxos.map Utxo.satoshis).sum = 0 := by omega
  have hs := foldl_jsAdd_exact utxos 0 (by omega)
  simpa [h0] using hs

theorem ofInt_of_natAbs_le {z : Int} (h : z.natAbs ≤ 2 ^ 53) : ofInt z = .int z := by
  unfold ofInt
  by_cases hz : 0 ≤ z
  · have ht : z.toNat ≤ 2 ^ 53 := by omega
    simp only [hz, if_true]
    rw [ofNat_of_le ht]
    congr 1
    omega
  · simp only [hz, if_false, roundSig_of_le h, overflows_of_le h, Bool.false_eq_true]
    congr 1
    omega

theorem roundSig_le_pow {m k : Nat} (hm : m < 2 ^ k) (hk : 53 ≤ k) : roundSig m ≤ 2 ^ k := by
  have hb := bitLen_le hm
  have hs : bitLen m - 53 ≤ k := by omega
  obtain ⟨d, hd⟩ : ∃ d, k = (bitLen m - 53) + d := ⟨k - (bitLen m - 53), by omega⟩
  have hpow : 2 ^ k = 2 ^ d * 2 ^ (bitLen m - 53) := by
    rw [hd, Nat.pow_add, Nat.mul_comm]
  have hq : m / 2 ^ (bitLen m - 53) < 2 ^ d := by
    rw [Nat.div_lt_iff_lt_mul (by positivity)]
    rw [← hpow]
    exact hm
  unfold roundSig
  simp only
  split
  · rw [hpow]
    exact Nat.mul_le_mul_right _ hq
  · rw [hpow]
    exact Nat.mul_le_mul_right _ (Nat.le_of_lt hq)

theorem ceilOnePointOneTimes_of_le {b : Nat} (h : b ≤ 2 ^ 51) :
    ∃ fee : Nat, fee ≤ 2 ^ 52 ∧ ceilOnePointOneTimes b = .int (fee : Int) := by
  have hm : b * onePointOneNum < 2 ^ 104 := by
    have h1 : onePointOneNum < 2 ^ 53 := by decide
    calc b * onePointOneNum ≤ 2 ^ 51 * onePointOneNum := Nat.mul_le_mul_right _ h
      _ < 2 ^ 51 * 2 ^ 53 := Nat.mul_lt_mul_of_pos_left h1 (by positivity)
      _ = 2 ^ 104 := by rw [← Nat.pow_add]
  have hr := roundSig_le_pow hm (by decide)
  have hc : (roundSig (b * onePointOneNum) + (2 ^ 52 - 1)) / 2 ^ 52 ≤ 2 ^ 52 := by
    have h2 : (2 : Nat) ^ 104 = 2 ^ 52 * 2 ^ 52 := by rw [← Nat.pow_add]
    rw [Nat.div_le_iff_le_mul_add_pred (by positivity)]
    omega
  have hc53 : (roundSig (b * onePointOneNum) + (2 ^ 52 - 1)) / 2 ^ 52 ≤ 2 ^ 53 := by
    have : (2 : Nat) ^ 52 ≤ 2 ^ 53 := by decide
    omega
  refine ⟨(roundSig (b * onePointOneNum) + (2 ^ 52 - 1)) / 2 ^ 52, hc, ?_⟩
  unfold ceilOnePointOneTimes
  simp only [overflows_of_le hc53, Bool.false_eq_true, if_false]

theorem bitLenAux_pow_le (f : Nat) : ∀ n b : Nat, bitLenAux f n = b + 1 → 2 ^ b ≤ n := by
  induction f with
  | zero => intro n b h; simp [bitLenAux] at h
  | succ f ih =>
    intro n b h
    unfold bitLenAux at h
    split at h
    · omega
    · rename_i hn
      have hb : bitLenAux f (n / 2) = b := by omega
      cases b with
      | zero => simp; omega
      | succ b =>
        have := ih (n / 2) b hb
        rw [Nat.pow_succ]
        omega

theorem roundSig_ge {m : Nat} (h : 2 ^ 53 ≤ m) : 2 ^ 53 ≤ roundSig m := by
  have hq : 2 ^ 53 ≤ m / 2 ^ (bitLen m - 53) * 2 ^ (bitLen m - 53) := by
    rcases Nat.eq_zero_or_pos (bitLen m - 53) with hs | hs
    · rw [hs]; simpa using h
    · obtain ⟨s, hs1⟩ : ∃ s, bitLen m - 53 = s + 1 := ⟨bitLen m - 53 - 1, by omega⟩
      have hb : bitLenAux m m = (s + 53) + 1 := by
        have : bitLen m = bitLenAux m m := rfl
        omega
      have hlow := bitLenAux_pow_le m m (s + 53) hb
      rw [hs1]
      have hdiv : 2 ^ 52 ≤ m / 2 ^ (s + 1) := by
        rw [Nat.le_div_iff_mul_le (by positivity)]
        calc 2 ^ 52 * 2 ^ (s + 1) = 2 ^ (s + 53) := by rw [← Nat.pow_add]; congr 1; omega
          _ ≤ m := hlow
      calc 2 ^ 53 = 2 ^ 52 * 2 ^ 1 := by rw [← Nat.pow_add]
        _ ≤ 2 ^ 52 * 2 ^ (s + 1) :=
          Nat.mul_le_mul_left _ (Nat.pow_le_pow_right (by decide) (by omega))
        _ ≤ m / 2 ^ (s + 1) * 2 ^ (s + 1) := Nat.mul_le_mul_right _ hdiv
  unfold roundSig
  simp only
  split
  · calc 2 ^ 53 ≤ m / 2 ^ (bitLen m - 53) * 2 ^ (bitLen m - 53) := hq
      _ ≤ (m / 2 ^ (bitLen m - 53) + 1) * 2 ^ (bitLen m - 53) :=
        Nat.mul_le_mul_right _ (Nat.le_succ _)
  · exact hq

theorem roundSig_ge_two_pow_52 {m : Nat} (h : 2 ^ 52 ≤ m) : 2 ^ 52 ≤ roundSig m := by
  by_cases hle : m ≤ 2 ^ 53
  · rw [roundSig_of_le hle]; exact h
  · have := roundSig_ge (Nat.le_of_lt (Nat.lt_of_not_le hle))
    have h2 : (2 : Nat) ^ 52 ≤ 2 ^ 53 := by decide
    omega

/-- A sum that has left the range of exact integers: `Infinity` or a number of
at least `2 ^ 53`. -/
theorem jsAdd_large {a u : Nat} (h : 2 ^ 53 ≤ a + u) :
    jsAdd (.int (a : Int)) (.int (u : Int)) = .posInf ∨
      ∃ r : Nat, 2 ^ 53 ≤ r ∧ jsAdd (.int (a : Int)) (.int (u : Int)) = .int (r : Int) := by
  have h0 : (0 : Int) ≤ (a : Int) + (u : Int) := by omega
  have ht : ((a : Int) + (u : Int)).toNat = a + u := by omega
  simp only [jsAdd, ofInt, h0, if_true, ht, ofNat]
  split
  · exact Or.inl rfl
  · exact Or.inr ⟨roundSig (a + u), roundSig_ge h, rfl⟩

theorem foldl_jsAdd_large (utxos : List Utxo) : ∀ x : JsNum,
    (x = .posInf ∨ ∃ r : Nat, 2 ^ 53 ≤ r ∧ x = .int (r : Int)) →
    (utxos.foldl (fun acc u => jsAdd acc (.int (u.satoshis : Int))) x = .posInf ∨
      ∃ r : Nat, 2 ^ 53 ≤ r ∧
        utxos.foldl (fun acc u => jsAdd acc (.int (u.satoshis : Int))) x = .int (r : Int)) := by
  induction utxos with
  | nil => intro x hx; simpa using hx
  | cons u rest ih =>
    intro x hx
    simp only [List.foldl_cons]
    apply ih
    rcases hx with hx | ⟨r, hr, hx⟩
    · left; rw [hx]; rfl
    · rw [hx]
      exact jsAdd_large (by omega)

theorem foldl_jsAdd_cases (utxos : List Utxo) : ∀ a : Nat,
    (a + (utxos.map Utxo.satoshis).sum ≤ 2 ^ 53 ∧
      utxos.foldl (fun acc u => jsAdd acc (.int (u.satoshis : Int))) (.int (a : Int))
        = .int ((a + (utxos.map Utxo.satoshis).sum : Nat) : Int)) ∨
    (utxos.foldl (fun acc u => jsAdd acc (.int (u.satoshis : Int))) (.int (a : Int))
        = .posInf ∨
      ∃ r : Nat, 2 ^ 53 ≤ r ∧
        utxos.foldl (fun acc u => jsAdd acc (.int (u.satoshis : Int))) (.int (a : Int))
          = .int (r : Int)) := by
  intro a
  by_cases h : a + (utxos.map Utxo.satoshis).sum ≤ 2 ^ 53
  · exact Or.inl ⟨h, foldl_jsAdd_exact utxos a h⟩
  · right
    induction utxos generalizing a with
    | nil =>
      simp only [List.map_nil, List.sum_nil, Nat.add_zero] at h
      exact Or.inr ⟨a, by omega, rfl⟩
    | cons u rest ih =>
      simp only [List.map_cons, List.sum_cons] at h
      simp only [List.foldl_cons]
      by_cases hstep : a + u.satoshis ≤ 2 ^ 53
      · rw [jsAdd_int_of_le hstep]
        exact ih (a + u.satoshis) (by omega)
      · exact foldl_jsAdd_large rest _ (jsAdd_large (by omega))

theorem jsSub_large_not_satoshi {x : JsNum} {fee : Nat} (hfee : fee ≤ 2 ^ 52)
    (hx : x = .posInf ∨ ∃ r : Nat, 2 ^ 53 ≤ r ∧ x = .int (r : Int)) :
    isSatoshi (jsSub x (.int (fee : Int))) = false := by
  rcases hx with hx | ⟨r, hr, hx⟩
  · rw [hx]; rfl
  · rw [hx]
    have h0 : (0 : Int) ≤ (r : Int) + -(fee : Int) := by
      have : (2 : Nat) ^ 52 ≤ 2 ^ 53 := by decide
      omega
    have ht : ((r : Int) + -(fee : Int)).toNat = r - fee := by omega
    have hbig : 2 ^ 52 ≤ r - fee := by
      have : (2 : Nat) ^ 53 = 2 ^ 52 + 2 ^ 52 := by decide
      omega
    have hround := roundSig_ge_two_pow_52 hbig
    simp only [jsSub, jsNeg, jsAdd, ofInt, h0, if_true, ht, ofNat]
    split
    · rfl
    · simp only [isSatoshi, decide_eq_false_iff_not, not_and, not_le]
      intro _
      have : (2100000000000000 : Nat) < 2 ^ 52 := by decide
      omega

/-- C16: when the indexer answers the utxo lookup of `fromAddr` with
`response`, `sendAllAddr` throws 'utxos must be an array.' if `response` is not
an array, 'No utxos found.' if it is the empty array, and (the library having
accepted the inputs) 'Original amount is zero. No BCH to send.' if the satoshis
of its utxos sum to less than 1.  In all three cases the body stops before an
output is added: no builder is handed on and no hex is returned. -/
theorem sendAllAddr_rejects (self : BCH Seed Node KeyPair Tx) (walletInfo : WalletInfo)
    (fromAddr : String) (hdIndex : JsValue) (toAddr : String) (w : World) (a : String)
    (response : UtxoResponse)
    (ha : self.bchjs.toCashAddress fromAddr = .ok a)
    (hu : self.bchjs.blockbookUtxo a = .ok response) :
    (∀ v, response = .other v →
      sendAllAddr self walletInfo fromAddr hdIndex toAddr w
        = (.error (.error "utxos must be an array."),
            { console := w.console ++ [.utxos response,
                .text "Error in bch.js/sendAllAddr()"] })) ∧
    (response = .array [] →
      sendAllAddr self walletInfo fromAddr hdIndex toAddr w
        = (.error (.error "No utxos found."),
            { console := w.console ++ [.utxos response,
                .text "Error in bch.js/sendAllAddr()"] })) ∧
    (∀ utxos, response = .array utxos → utxos ≠ [] → (utxos.map Utxo.satoshis).sum < 1 →
      (∀ tb txid vout, self.bchjs.acceptsInput tb txid vout = .ok ()) →
      sendAllAddr self walletInfo fromAddr hdIndex toAddr w
        = (.error (.error "Original amount is zero. No BCH to send."),
            { console := w.console ++ [.utxos response,
                .text "Error in bch.js/sendAllAddr()"] })) ∧
    (((∃ v, response = .other v) ∨
        ∃ utxos, response = .array utxos ∧ (utxos.map Utxo.satoshis).sum < 1) →
      (∀ tb, (sendAllAddrBuilder self walletInfo fromAddr hdIndex toAddr w).1 ≠ .ok tb) ∧
        ∀ hex, (sendAllAddr self walletInfo fromAddr hdIndex toAddr w).1 ≠ .ok hex) := by
  have hg : getUtxos self fromAddr w = (.ok response, w) :=
    getUtxos_ok self fromAddr a response w ha hu
  refine ⟨?_, ?_, ?_, ?_⟩
  · intro v hv
    subst hv
    have hbld : sendAllAddrBuilder self walletInfo fromAddr hdIndex toAddr w
        = (.error (.error "utxos must be an array."),
            { console := w.console ++ [.utxos (.other v)] }) := by
      unfold sendAllAddrBuilder
      simp only [run_bind, run_consoleLog, run_throw, hg]
    simp [sendAllAddr, hbld]
  · intro hr
    subst hr
    have hbld : sendAllAddrBuilder self walletInfo fromAddr hdIndex toAddr w
        = (.error (.error "No utxos found."),
            { console := w.console ++ [.utxos (.array [])] }) := by
      unfold sendAllAddrBuilder
      simp only [run_bind, run_consoleLog, run_throw, hg, List.length_nil, if_true]
    simp [sendAllAddr, hbld]
  · intro utxos hr hne hsum hin
    subst hr
    have hlen : ¬ utxos.length = 0 := by
      intro h0
      exact hne (List.length_eq_zero.mp h0)
    have hzero := foldl_jsAdd_zero utxos hsum
    have hlt : jsLt (.int 0) (.int 1) = true := by decide
    have hadd := addAllInputs_ok self.bchjs hin utxos
    have hbld : sendAllAddrBuilder self walletInfo fromAddr hdIndex toAddr w
        = (.error (.error "Original amount is zero. No BCH to send."),
            { console := w.console ++ [.utxos (.array utxos)] }) := by
      unfold sendAllAddrBuilder
      simp only [run_bind, run_consoleLog, run_pure, run_throw, hg, hlen, if_false, hadd,
        hzero, hlt, if_true]
    simp [sendAllAddr, hbld]
  · intro hcase
    have hno : ∀ tb, (sendAllAddrBuilder self walletInfo fromAddr hdIndex toAddr w).1
        ≠ .ok tb := by
      intro tb htb
      obtain ⟨utxos, bitbox, legacy, hget, hne, _, _, hlt, _⟩ := sendAllAddrBuilder_fst_ok htb
      rw [hg] at hget
      have hresp : response = .array utxos := by simpa using hget
      rcases hcase with ⟨v, hv⟩ | ⟨us, hus, hsum⟩
      · rw [hv] at hresp; cases hresp
      · rw [hus] at hresp
        cases hresp
        rw [foldl_jsAdd_zero utxos hsum] at hlt
        exact absurd hlt (by decide)
    refine ⟨hno, ?_⟩
    intro hex hhex
    obtain ⟨tb, _, htb, _⟩ := sendAllAddr_fst_ok hhex
    exact hno tb htb

/-- An instance of `sendAllAddr_rejects` for each of the three checks: the
indexer answers `null`, the empty array, and one utxo of 0 satoshis. -/
theorem sendAllAddr_rejects_witness :
    sendAllAddr (demoBchWith (.other .null)) demoWallet "addr" (.number (.int 0)) "dest"
        emptyWorld
      = (.error (.error "utxos must be an array."),
          { console := emptyWorld.console ++ [.utxos (.other .null),
              .text "Error in bch.js/sendAllAddr()"] }) ∧
    sendAllAddr (demoBchWith (.array [])) demoWallet "addr" (.number (.int 0)) "dest"
        emptyWorld
      = (.error (.error "No utxos found."),
          { console := emptyWorld.console ++ [.utxos (.array []),
              .text "Error in bch.js/sendAllAddr()"] }) ∧
    sendAllAddr (demoBchWith (.array [{ txid := some "aa", vout := some 0, satoshis := 0 }]))
        demoWallet "addr" (.number (.int 0)) "dest" emptyWorld
      = (.error (.error "Original amount is zero. No BCH to send."),
          { console := emptyWorld.console ++
              [.utxos (.array [{ txid := some "aa", vout := some 0, satoshis := 0 }]),
               .text "Error in bch.js/sendAllAddr()"] }) :=
  ⟨(sendAllAddr_rejects (demoBchWith (.other .null)) demoWallet "addr" (.number (.int 0))
      "dest" emptyWorld "addr" (.other .null) rfl rfl).1 .null rfl,
    (sendAllAddr_rejects (demoBchWith (.array [])) demoWallet "addr" (.number (.int 0))
      "dest" emptyWorld "addr" (.array []) rfl rfl).2.1 rfl,
    (sendAllAddr_rejects
      (demoBchWith (.array [{ txid := some "aa", vout := some 0, satoshis := 0 }]))
      demoWallet "addr" (.number (.int 0)) "dest" emptyWorld "addr"
      (.array [{ txid := some "aa", vout := some 0, satoshis := 0 }]) rfl rfl).2.2.1
      [{ txid := some "aa", vout := some 0, satoshis := 0 }] rfl (by decide) (by decide)
      (fun _ _ _ => rfl)⟩

/-- C17: for every non-empty utxo list accepted by `sendAllAddr` (it returns a
hex), the hex is that of the transaction built from a builder that holds
exactly one input per utxo of the list, in list order, and exactly one output,
and the output amount plus the fee `Math.ceil(1.1 * byteCount)` equals the sum
of the satoshis of all the utxos.  Three facts about the library and the
language are assumed: the library's `addOutput` accepts only a Satoshi amount
(an integer from 0 to 2100000000000000), a JavaScript array has fewer than
`2 ^ 32` elements, and the byte count estimated for that many inputs is at most
`2 ^ 51` (the estimate is 148 bytes per input plus 44). -/
theorem sendAllAddr_transaction (self : BCH Seed Node KeyPair Tx) (walletInfo : WalletInfo)
    (fromAddr : String) (hdIndex : JsValue) (toAddr : String) (w : World) (hex : String)
    (hsat : ∀ tb address amount,
      self.bchjs.acceptsOutput tb address amount = .ok () → isSatoshi amount = true)
    (hlen : ∀ utxos, (getUtxos self fromAddr w).1 = .ok (.array utxos) →
      utxos.length < 2 ^ 32)
    (hbytes : ∀ bitbox, self.BITBOX = some bitbox →
      ∀ n, n < 2 ^ 32 → bitbox.getByteCount n 1 ≤ 2 ^ 51)
    (h : (sendAllAddr self walletInfo fromAddr hdIndex toAddr w).1 = .ok hex) :
    ∃ (utxos : List Utxo) (bitbox : Bitbox) (legacy : String)
      (tb : TransactionBuilder KeyPair) (tx : Tx) (amount fee : Nat),
      (getUtxos self fromAddr w).1 = .ok (.array utxos) ∧ utxos ≠ [] ∧
      self.BITBOX = some bitbox ∧
      (sendAllAddrBuilder self walletInfo fromAddr hdIndex toAddr w).1 = .ok tb ∧
      self.bchjs.build tb = .ok tx ∧ hex = self.bchjs.toHex tx ∧
      tb.inputs = utxos.map (fun u => (u.txid, u.vout)) ∧
      tb.inputs.length = utxos.length ∧
      tb.outputs = [(legacy, .int (amount : Int))] ∧
      ceilOnePointOneTimes (bitbox.getByteCount utxos.length 1) = .int (fee : Int) ∧
      amount + fee = (utxos.map Utxo.satoshis).sum := by
  obtain ⟨tb, tx, htb, htx, hhex⟩ := sendAllAddr_fst_ok h
  obtain ⟨utxos, bitbox, legacy, hget, hne, hb, _, _, hin, hout, _, tb0, hacc⟩ :=
    sendAllAddrBuilder_fst_ok htb
  obtain ⟨fee, hfee, hceil⟩ :=
    ceilOnePointOneTimes_of_le (hbytes bitbox hb utxos.length (hlen utxos hget))
  have hs := hsat tb0 legacy _ hacc
  rw [hceil] at hs hout
  have h52 : (2 : Nat) ^ 53 = 2 ^ 52 + 2 ^ 52 := by decide
  rcases foldl_jsAdd_cases utxos 0 with ⟨hsum, hfold⟩ | hbig
  · simp only [Nat.zero_add, Nat.cast_zero] at hsum hfold
    have hsub : jsSub (.int (((utxos.map Utxo.satoshis).sum : Nat) : Int)) (.int (fee : Int))
        = .int ((((utxos.map Utxo.satoshis).sum : Nat) : Int) - (fee : Int)) := by
      simp only [jsSub, jsNeg, jsAdd]
      rw [ofInt_of_natAbs_le (by omega)]
      congr 1
    rw [hfold, hsub] at hs hout
    have hnn : (0 : Int) ≤ (((utxos.map Utxo.satoshis).sum : Nat) : Int) - (fee : Int) := by
      simp only [isSatoshi, decide_eq_true_eq] at hs
      exact hs.1
    refine ⟨utxos, bitbox, legacy, tb, tx, (utxos.map Utxo.satoshis).sum - fee, fee,
      hget, hne, hb, htb, htx, hhex, hin, ?_, ?_, hceil, ?_⟩
    · rw [hin, List.length_map]
    · rw [hout]
      congr 3
      omega
    · omega
  · simp only [Nat.cast_zero] at hbig
    rw [jsSub_large_not_satoshi hfee hbig] at hs
    exact absurd hs (by decide)

/-- An instance of `sendAllAddr_transaction` on a library that accepts only
Satoshi amounts as outputs: utxos of 600 and 400 satoshis, a byte count of 340
and a fee of 375; the output is 625. -/
theorem sendAllAddr_transaction_witness :
    (sendAllAddr (demoCheckedBch (.array demoUtxos)) demoWallet "addr" (.number (.int 0))
        "dest" emptyWorld).1 = .ok "dest=625" ∧
    ∃ (utxos : List Utxo) (bitbox : Bitbox) (legacy : String)
      (tb : TransactionBuilder String) (tx : String) (amount fee : Nat),
      (getUtxos (demoCheckedBch (.array demoUtxos)) "addr" emptyWorld).1
        = .ok (.array utxos) ∧
      utxos ≠ [] ∧
      (demoCheckedBch (.array demoUtxos)).BITBOX = some bitbox ∧
      (sendAllAddrBuilder (demoCheckedBch (.array demoUtxos)) demoWallet "addr"
        (.number (.int 0)) "dest" emptyWorld).1 = .ok tb ∧
      (demoCheckedBch (.array demoUtxos)).bchjs.build tb = .ok tx ∧
      "dest=625" = (demoCheckedBch (.array demoUtxos)).bchjs.toHex tx ∧
      tb.inputs = utxos.map (fun u => (u.txid, u.vout)) ∧
      tb.inputs.length = utxos.length ∧
      tb.outputs = [(legacy, .int (amount : Int))] ∧
      ceilOnePointOneTimes (bitbox.getByteCount utxos.length 1) = .int (fee : Int) ∧
      amount + fee = (utxos.map Utxo.satoshis).sum :=
  ⟨by decide,
    sendAllAddr_transaction (demoCheckedBch (.array demoUtxos)) demoWallet "addr"
      (.number (.int 0)) "dest" emptyWorld "dest=625"
      (fun _ _ amount hacc => by
        cases hs : isSatoshi amount with
        | true => rfl
        | false =>
          simp only [demoCheckedBch, demoCheckedLib, hs, Bool.false_eq_true, if_false] at hacc
          cases hacc)
      (fun utxos hget => by
        have hu : utxos = demoUtxos := by
          have hg : (getUtxos (demoCheckedBch (.array demoUtxos)) "addr" emptyWorld).1
              = .ok (.array demoUtxos) := by decide
          rw [hg] at hget
          cases hget
          rfl
        rw [hu]
        decide)
      (fun bitbox hb n hn => by
        have hbb : bitbox = demoBitbox := by
          simp only [demoCheckedBch, Option.some.injEq] at hb
          exact hb.symm
        rw [hbb]
        simp only [demoBitbox]
        omega)
      (by decide)⟩

/-- On a library that checks output amounts, utxos of 9007199254740992 and 1
satoshis are not accepted: their sum rounds to 9007199254740992, the amount
9007199254740617 left after the fee of 375 is no Satoshi value, `addOutput`
throws and `sendAllAddr` returns no hex. -/
theorem sendAllAddr_rounded_sum_not_accepted :
    (sendAllAddr
        (demoCheckedBch (.array [{ txid := some "aa", vout := some 0,
                                   satoshis := 9007199254740992 },
                                 { txid := some "bb", vout := some 1, satoshis := 1 }]))
        demoWallet "addr" (.number (.int 0)) "dest" emptyWorld).1
      = .error (.thrown "Expected Satoshi") := by
  decide

/-! ## Issuing a token without enough credit -/

/-- C11 (as amended): when the price of the requested tier is positive and
greater than the user's credit plus the refund for the user's active token,
`issue` fails with `InsufficientCredit`, the user's token, tier and expiry stay
as they were, and the credit stored is the credit before plus that refund; for
a user without an active token the record is left unchanged. -/
theorem issue_insufficient_credit (cfg : Tiers) (user : User) (tier : Nat) (now : Nat)
    (price : ℚ) (hp : priceOf cfg tier = some price) (hpos : 0 < price)
    (hc : user.credit + refundFor cfg user now < price) :
    (issue cfg user (tier : Int) now).1 = .error .insufficientCredit ∧
      (issue cfg user (tier : Int) now).2.apiToken = user.apiToken ∧
      (issue cfg user (tier : Int) now).2.apiLevel = user.apiLevel ∧
      (issue cfg user (tier : Int) now).2.apiTokenExp = user.apiTokenExp ∧
      (issue cfg user (tier : Int) now).2.credit = user.credit + refundFor cfg user now ∧
      (hasActiveToken user now = false → (issue cfg user (tier : Int) now).2 = user) := by
  have hneg : ¬ ((tier : Int) < 0) := by omega
  have hnn := refundFor_nonneg cfg user now
  unfold issue
  simp only [hneg, if_false, Int.toNat_ofNat, hp]
  cases ht : hasActiveToken user now with
  | true =>
    have hr : ¬ refundFor cfg user now < 0 := not_lt.mpr hnn
    simp [creditUser, hr, hpos, hc]
  | false =>
    have h0 := refundFor_of_inactive cfg user now ht
    rw [h0, add_zero] at hc
    simp [hpos, hc, h0]

/-- An instance of `issue_insufficient_credit`: credit 5, no token, tier 10 at
price 10; the issue fails and the record, credit 5 included, is unchanged. -/
theorem issue_insufficient_credit_witness :
    (issue demoTiers demoPoorUser ((10 : Nat) : Int) 1000).1 = .error .insufficientCredit ∧
      (issue demoTiers demoPoorUser ((10 : Nat) : Int) 1000).2 = demoPoorUser ∧
      demoPoorUser.credit = 5 :=
  ⟨(issue_insufficient_credit demoTiers demoPoorUser 10 1000 10 (by decide) (by norm_num)
      (by rw [refundFor_of_inactive demoTiers demoPoorUser 1000 (by decide)]
          simp [demoPoorUser]; norm_num)).1,
    (issue_insufficient_credit demoTiers demoPoorUser 10 1000 10 (by decide) (by norm_num)
      (by rw [refundFor_of_inactive demoTiers demoPoorUser 1000 (by decide)]
          simp [demoPoorUser]; norm_num)).2.2.2.2.2 (by decide),
    rfl⟩

theorem issue_ok (cfg : Tiers) (user : User) (tier : Nat) (now : Nat) (price : ℚ)
    (hp : priceOf cfg tier = some price)
    (hc : price ≤ user.credit + refundFor cfg user now) :
    issue cfg user (tier : Int) now
      = (.ok (cfg.signToken user.id tier (now + cfg.tokenLifetime)),
          { user with
            credit := user.credit + refundFor cfg user now - price,
            apiToken := some (cfg.signToken user.id tier (now + cfg.tokenLifetime)),
            apiLevel := tier,
            apiTokenExp := now + cfg.tokenLifetime }) := by
  have hneg : ¬ ((tier : Int) < 0) := by omega
  have hnn := refundFor_nonneg cfg user now
  unfold issue
  simp only [hneg, if_false, Int.toNat_ofNat, hp]
  cases ht : hasActiveToken user now with
  | true =>
    have hr : ¬ refundFor cfg user now < 0 := not_lt.mpr hnn
    have h4 : ¬ (0 < price ∧ user.credit + refundFor cfg user now < price) := by
      intro h
      linarith [h.2]
    have h5 : ¬ (user.credit + refundFor cfg user now < price) := not_lt.mpr hc
    simp [creditUser, debitUser, hr, h4, h5]
  | false =>
    have h0 := refundFor_of_inactive cfg user now ht
    rw [h0, add_zero] at hc
    have h4 : ¬ (0 < price ∧ user.credit < price) := by
      intro h
      linarith [h.2]
    have h5 : ¬ (user.credit < price) := not_lt.mpr hc
    simp [debitUser, h4, h5, h0]

theorem demoTier20User_refund :
    refundFor demoTiers demoTier20User 1000 = 20 - 1 / 129600 := by
  have hmin : min (2593000 - 1000) (2592000 - 1) = 2591999 := by decide
  simp only [refundFor, hasActiveToken, demoTier20User, priceOf, demoTiers]
  simp only [Option.isSome_some, Bool.true_and, hmin]
  norm_num

/-- C11 (as stated) fails: a user with credit 5 who holds a tier 20 token
issued at this very time asks for tier 10 at price 10, which is positive and
greater than the credit; the refund, 20 less the share of one second, is
credited first, the issue succeeds, and the credit stored is that refund plus
5 minus 10. -/
theorem issue_succeeds_after_refund :
    priceOf demoTiers 10 = some 10 ∧ demoTier20User.credit = 5 ∧
    (issue demoTiers demoTier20User ((10 : Nat) : Int) 1000).1 = .ok "u3.10.2593000" ∧
    ¬ (issue demoTiers demoTier20User ((10 : Nat) : Int) 1000).1
        = .error .insufficientCredit ∧
    (issue demoTiers demoTier20User ((10 : Nat) : Int) 1000).2.credit
      = 5 + (20 - 1 / 129600) - 10 := by
  have hissue := issue_ok demoTiers demoTier20User 10 1000 10 (by decide)
    (by rw [demoTier20User_refund]; simp [demoTier20User]; norm_num)
  have htoken : demoTiers.signToken demoTier20User.id 10 (1000 + demoTiers.tokenLifetime)
      = "u3.10.2593000" := by decide
  rw [htoken, demoTier20User_refund] at hissue
  refine ⟨by decide, rfl, ?_, ?_, ?_⟩
  · rw [hissue]
  · rw [hissue]; simp
  · rw [hissue]; simp [demoTier20User]

/-! ## Validating a token -/

theorem issue_fst_ok {cfg : Tiers} {user : User} {requestedTier : Int} {now : Nat}
    {token : String} (h : (issue cfg user requestedTier now).1 = .ok token) :
    (issue cfg user requestedTier now).2.id = user.id ∧
      (issue cfg user requestedTier now).2.apiToken = some token ∧
      (issue cfg user requestedTier now).2.apiLevel = requestedTier.toNat := by
  unfold issue at h ⊢
  by_cases hneg : requestedTier < 0
  · simp [hneg] at h
  · simp only [hneg, if_false] at h ⊢
    cases hp : priceOf cfg requestedTier.toNat with
    | none => simp [hp] at h
    | some price =>
      simp only [hp] at h ⊢
      cases ht : hasActiveToken user now with
      | true =>
        simp only [ht, if_true] at h ⊢
        by_cases hr : refundFor cfg user now < 0
        · simp [creditUser, hr] at h
        · simp only [creditUser, hr, if_false] at h ⊢
          by_cases h4 : 0 < price ∧ user.credit + refundFor cfg user now < price
          · simp [h4] at h
          · simp only [h4, if_false] at h ⊢
            by_cases h5 : user.credit + refundFor cfg user now < price
            · simp [debitUser, h5] at h
            · simp only [debitUser, h5, if_false] at h ⊢
              simp only [Except.ok.injEq] at h
              simp [h]
      | false =>
        simp only [ht, Bool.false_eq_true, if_false] at h ⊢
        by_cases h4 : 0 < price ∧ user.credit < price
        · simp [h4] at h
        · simp only [h4, if_false] at h ⊢
          by_cases h5 : user.credit < price
          · simp [debitUser, h5] at h
          · simp only [debitUser, h5, if_false] at h ⊢
            simp only [Except.ok.injEq] at h
            simp [h]

theorem validate_stored (verify : String → Option Claims) (lookup : String → Option User)
    (stored : User) (tokenString : String) (claims : Claims) (now : Nat)
    (hv : verify tokenString = some claims) (hid : claims.userId = stored.id) :
    validate verify (storeUser lookup stored) tokenString now
      = if claims.exp ≤ now then { isValid := false, apiLevel := 0 }
        else if stored.apiToken = some tokenString then
          { isValid := true, apiLevel := stored.apiLevel }
        else { isValid := false, apiLevel := 0 } := by
  simp [validate, hv, storeUser, hid]

/-- C12 (as amended): once `issue` has returned a token, every other token
that verifies as a token of the same user, the previously active one included
when it differs from the new one, validates as `isValid = false`, whether or
not its own expiry has passed; among that user's tokens only the one now stored
on the record can validate as true, and it does, at the tier just granted,
until its expiry. -/
theorem validate_superseded (cfg : Tiers) (user : User) (requestedTier : Int) (now : Nat)
    (token old : String) (oldClaims : Claims) (verify : String → Option Claims)
    (lookup : String → Option User) (later : Nat)
    (hissue : (issue cfg user requestedTier now).1 = .ok token)
    (hne : old ≠ token)
    (hv : verify old = some oldClaims) (hid : oldClaims.userId = user.id) :
    (validate verify (storeUser lookup (issue cfg user requestedTier now).2) old later).isValid
        = false ∧
      (∀ t c, verify t = some c → c.userId = user.id →
        (validate verify (storeUser lookup (issue cfg user requestedTier now).2) t
          later).isValid = true → t = token) ∧
      (∀ c, verify token = some c → c.userId = user.id → later < c.exp →
        validate verify (storeUser lookup (issue cfg user requestedTier now).2) token later
          = { isValid := true, apiLevel := requestedTier.toNat }) := by
  obtain ⟨h1, h2, h3⟩ := issue_fst_ok hissue
  refine ⟨?_, ?_, ?_⟩
  · rw [validate_stored verify lookup _ old oldClaims later hv (by rw [hid, h1]), h2]
    have : ¬ (some token = some old) := by
      intro h
      exact hne (Option.some.inj h).symm
    split_ifs <;> rfl
  · intro t c hvt hidt hvalid
    rw [validate_stored verify lookup _ t c later hvt (by rw [hidt, h1]), h2] at hvalid
    split_ifs at hvalid with hexp heq
    · exact (Option.some.inj heq).symm
  · intro c hvt hidt hexp
    rw [validate_stored verify lookup _ token c later hvt (by rw [hidt, h1]), h2, h3]
    have : ¬ c.exp ≤ later := by omega
    simp [this]

theorem demoFreeUser_refund (now : Nat) : refundFor demoTiers demoFreeUser now = 0 := by
  unfold refundFor
  split
  · simp [priceOf, demoFreeUser]
  · rfl

theorem demoFreeUser_issue (now : Nat) :
    issue demoTiers demoFreeUser ((0 : Nat) : Int) now
      = (.ok (demoTiers.signToken "u4" 0 (now + 2592000)),
          { demoFreeUser with
            credit := demoFreeUser.credit + 0 - 0,
            apiToken := some (demoTiers.signToken "u4" 0 (now + 2592000)),
            apiLevel := 0,
            apiTokenExp := now + 2592000 }) := by
  have h := issue_ok demoTiers demoFreeUser 0 now 0 (by decide)
    (by rw [demoFreeUser_refund]; simp [demoFreeUser])
  rw [demoFreeUser_refund] at h
  exact h

/-- An instance of `validate_superseded`: the free token issued at time 1000
is replaced at time 1001; the old token, which expires at 2593000, is not
valid any more. -/
theorem validate_superseded_witness :
    demoFreeUser.apiToken = some "u4.0.2593000" ∧
      (issue demoTiers demoFreeUser ((0 : Nat) : Int) 1001).1 = .ok "u4.0.2593001" ∧
      demoVerify "u4.0.2593000" = some { userId := "u4", apiLevel := 0, exp := 2593000 } ∧
      (validate demoVerify
        (storeUser (fun _ => none) (issue demoTiers demoFreeUser ((0 : Nat) : Int) 1001).2)
        "u4.0.2593000" 1001).isValid = false :=
  ⟨rfl, by rw [demoFreeUser_issue]; decide, by decide,
    (validate_superseded demoTiers demoFreeUser ((0 : Nat) : Int) 1001 "u4.0.2593001"
      "u4.0.2593000" { userId := "u4", apiLevel := 0, exp := 2593000 } demoVerify
      (fun _ => none) 1001 (by rw [demoFreeUser_issue]; decide) (by decide) (by decide)
      rfl).1⟩

/-- C12 (as stated) fails: the user's free token issued at time 1000 is
reissued at the same time; the token issued is the same string, and the
previously active token still validates as true. -/
theorem validate_same_instant_reissue :
    demoFreeUser.apiToken = some "u4.0.2593000" ∧
      (issue demoTiers demoFreeUser ((0 : Nat) : Int) 1000).1 = .ok "u4.0.2593000" ∧
      (validate demoVerify
        (storeUser (fun _ => none) (issue demoTiers demoFreeUser ((0 : Nat) : Int) 1000).2)
        "u4.0.2593000" 1000).isValid = true := by
  refine ⟨rfl, by rw [demoFreeUser_issue]; decide, ?_⟩
  rw [demoFreeUser_issue,
    validate_stored demoVerify (fun _ => none) _ "u4.0.2593000"
      { userId := "u4", apiLevel := 0, exp := 2593000 } 1000 (by decide) rfl]
  decide

/-! ## The refund -/

theorem refundFor_active (cfg : Tiers) (user : User) (now : Nat) (price : ℚ)
    (hp : priceOf cfg user.apiLevel = some price) (ha : hasActiveToken user now = true) :
    refundFor cfg user now
      = max 0 (price * ((min (user.apiTokenExp - now) (cfg.tokenLifetime - 1) : Nat) : ℚ)
          / (cfg.tokenLifetime : ℚ)) := by
  simp only [refundFor, ha, hp, if_true]

theorem refundFor_lt_price (cfg : Tiers) (user : User) (now : Nat) (price : ℚ)
    (hp : priceOf cfg user.apiLevel = some price) (hpos : 0 < price) :
    refundFor cfg user now < price := by
  cases ha : hasActiveToken user now with
  | false => rw [refundFor_of_inactive cfg user now ha]; exact hpos
  | true =>
    rw [refundFor_active cfg user now price hp ha]
    refine max_lt hpos ?_
    rcases Nat.eq_zero_or_pos cfg.tokenLifetime with hL | hL
    · rw [hL]
      simpa using hpos
    · have hLq : (0 : ℚ) < (cfg.tokenLifetime : ℚ) := by exact_mod_cast hL
      have hm : min (user.apiTokenExp - now) (cfg.tokenLifetime - 1) < cfg.tokenLifetime := by
        have := Nat.min_le_right (user.apiTokenExp - now) (cfg.tokenLifetime - 1)
        omega
      have hmq : ((min (user.apiTokenExp - now) (cfg.tokenLifetime - 1) : Nat) : ℚ)
          < (cfg.tokenLifetime : ℚ) := by exact_mod_cast hm
      rw [div_lt_iff₀ hLq]
      exact mul_lt_mul_of_pos_left hmq hpos

/-- C13 (as amended): with `price` the price of the user's tier, the refund is
never negative and is below `price` whenever `price` is positive; when `price`
is 0, as for the free tier, the refund is 0.  For an active token with less
than a lifetime remaining it is `price` times the remaining share of the
lifetime, and it is above `price - 1` when the elapsed share of the lifetime is
less than one part in `price`. -/
theorem refundFor_bounds (cfg : Tiers) (user : User) (now : Nat) (price : ℚ)
    (hp : priceOf cfg user.apiLevel = some price) :
    0 ≤ refundFor cfg user now ∧
      (0 < price → refundFor cfg user now < price) ∧
      (price ≤ 0 → refundFor cfg user now = 0) ∧
      (0 ≤ price → hasActiveToken user now = true →
        user.apiTokenExp - now < cfg.tokenLifetime →
        refundFor cfg user now
          = price * ((user.apiTokenExp - now : Nat) : ℚ) / (cfg.tokenLifetime : ℚ)) ∧
      (0 < price → hasActiveToken user now = true →
        price * ((cfg.tokenLifetime : ℚ)
            - ((min (user.apiTokenExp - now) (cfg.tokenLifetime - 1) : Nat) : ℚ))
          < (cfg.tokenLifetime : ℚ) →
        price - 1 < refundFor cfg user now ∧ refundFor cfg user now < price) := by
  refine ⟨refundFor_nonneg cfg user now, refundFor_lt_price cfg user now price hp, ?_, ?_, ?_⟩
  · intro hle
    cases ha : hasActiveToken user now with
    | false => exact refundFor_of_inactive cfg user now ha
    | true =>
      rw [refundFor_active cfg user now price hp ha]
      apply max_eq_left
      apply div_nonpos_of_nonpos_of_nonneg
      · exact mul_nonpos_of_nonpos_of_nonneg hle (Nat.cast_nonneg _)
      · exact Nat.cast_nonneg _
  · intro h0 ha hrem
    rw [refundFor_active cfg user now price hp ha]
    have hmin : min (user.apiTokenExp - now) (cfg.tokenLifetime - 1)
        = user.apiTokenExp - now := by
      apply Nat.min_eq_left
      omega
    rw [hmin]
    apply max_eq_right
    exact div_nonneg (mul_nonneg h0 (Nat.cast_nonneg _)) (Nat.cast_nonneg _)
  · intro hpos ha helapsed
    refine ⟨?_, refundFor_lt_price cfg user now price hp hpos⟩
    rw [refundFor_active cfg user now price hp ha]
    have hLq : (0 : ℚ) < (cfg.tokenLifetime : ℚ) := by
      rcases Nat.eq_zero_or_pos cfg.tokenLifetime with hL | hL
      · rw [hL] at helapsed
        simp at helapsed
      · exact_mod_cast hL
    have hx : price - 1
        < price * ((min (user.apiTokenExp - now) (cfg.tokenLifetime - 1) : Nat) : ℚ)
            / (cfg.tokenLifetime : ℚ) := by
      rw [lt_div_iff₀ hLq]
      nlinarith
    exact lt_of_lt_of_le hx (le_max_right _ _)

/-- An instance of `refundFor_bounds`: at the very time of issue and one
minute later, the refund of a tier 20 token with a lifetime of 2592000 seconds
lies strictly between 19 and 20, and that of a tier 10 token between 9 and 10. -/
theorem refundFor_bounds_witness :
    ((20 : ℚ) - 1 < refundFor demoTiers demoTier20User 1000 ∧
        refundFor demoTiers demoTier20User 1000 < 20) ∧
      ((20 : ℚ) - 1 < refundFor demoTiers demoTier20User 1060 ∧
        refundFor demoTiers demoTier20User 1060 < 20) ∧
      ((10 : ℚ) - 1 < refundFor demoTiers { demoTier20User with apiLevel := 10 } 1000 ∧
        refundFor demoTiers { demoTier20User with apiLevel := 10 } 1000 < 10) :=
  ⟨(refundFor_bounds demoTiers demoTier20User 1000 20 (by decide)).2.2.2.2
      (by norm_num) (by decide)
      (by
        have hmin : min (2593000 - 1000) (2592000 - 1) = 2591999 := by decide
        simp only [demoTiers, demoTier20User, hmin]
        norm_num),
    (refundFor_bounds demoTiers demoTier20User 1060 20 (by decide)).2.2.2.2
      (by norm_num) (by decide)
      (by
        have hmin : min (2593000 - 1060) (2592000 - 1) = 2591940 := by decide
        simp only [demoTiers, demoTier20User, hmin]
        norm_num),
    (refundFor_bounds demoTiers { demoTier20User with apiLevel := 10 } 1000 10
      (by decide)).2.2.2.2
      (by norm_num) (by decide)
      (by
        have hmin : min (2593000 - 1000) (2592000 - 1) = 2591999 := by decide
        simp only [demoTiers, demoTier20User, hmin]
        norm_num)⟩

/-- C13 (as stated) fails: for a user who holds an active token of the free
tier the price is 0 and the refund is 0, which is not below the price. -/
theorem refundFor_free_tier_not_below_price :
    hasActiveToken demoFreeUser 1000 = true ∧
      priceOf demoTiers demoFreeUser.apiLevel = some 0 ∧
      refundFor demoTiers demoFreeUser 1000 = 0 ∧
      ¬ (0 ≤ refundFor demoTiers demoFreeUser 1000 ∧
          refundFor demoTiers demoFreeUser 1000 < 0) := by
  refine ⟨by decide, by decide, demoFreeUser_refund 1000, ?_⟩
  rw [demoFreeUser_refund]
  simp

/-! ## Refreshing the credit -/

theorem refreshCredit_of_le (balanceOf : String → Option (Nat × Nat)) (quote : Option ℚ)
    (user : User) (confirmed unconfirmed : Nat)
    (hb : balanceOf user.bchAddr = some (confirmed, unconfirmed))
    (hle : confirmed + unconfirmed ≤ user.lastCreditCheckBalance) :
    refreshCredit balanceOf quote user = (.ok user.credit, user) := by
  have hd : ((confirmed + unconfirmed : Nat) : Int) - (user.lastCreditCheckBalance : Int) ≤ 0 := by
    omega
  simp only [refreshCredit, hb]
  rw [if_pos hd]

theorem refreshCredit_of_lt (balanceOf : String → Option (Nat × Nat)) (user : User)
    (confirmed unconfirmed : Nat) (price : ℚ)
    (hb : balanceOf user.bchAddr = some (confirmed, unconfirmed))
    (hgt : user.lastCreditCheckBalance < confirmed + unconfirmed) (hpos : 0 < price) :
    refreshCredit balanceOf (some price) user
      = (.ok (user.credit +
            ((((confirmed + unconfirmed : Nat) : Int) - (user.lastCreditCheckBalance : Int)
              : Int) : ℚ) * price),
          { user with
            credit := user.credit +
              ((((confirmed + unconfirmed : Nat) : Int) - (user.lastCreditCheckBalance : Int)
                : Int) : ℚ) * price,
            lastCreditCheckBalance := confirmed + unconfirmed }) := by
  have hd : ¬ (((confirmed + unconfirmed : Nat) : Int) - (user.lastCreditCheckBalance : Int)
      ≤ 0) := by
    omega
  simp only [refreshCredit, hb, currentPrice, hpos, if_true]
  rw [if_neg hd]

/-- C14: when the balance observed for the user's address, confirmed plus
unconfirmed, is not greater than `lastCreditCheckBalance`, `refreshCredit`
returns the credit as it was and leaves the user record, `credit` and
`lastCreditCheckBalance` included, unchanged; a second refresh with the same
observation does the same again. -/
theorem refreshCredit_no_deposit (balanceOf : String → Option (Nat × Nat))
    (quote : Option ℚ) (user : User) (confirmed unconfirmed : Nat)
    (hb : balanceOf user.bchAddr = some (confirmed, unconfirmed))
    (hle : confirmed + unconfirmed ≤ user.lastCreditCheckBalance) :
    refreshCredit balanceOf quote user = (.ok user.credit, user) ∧
      (refreshCredit balanceOf quote user).2.credit = user.credit ∧
      (refreshCredit balanceOf quote user).2.lastCreditCheckBalance
        = user.lastCreditCheckBalance ∧
      refreshCredit balanceOf quote (refreshCredit balanceOf quote user).2
        = refreshCredit balanceOf quote user := by
  have h := refreshCredit_of_le balanceOf quote user confirmed unconfirmed hb hle
  refine ⟨h, ?_, ?_, ?_⟩
  · rw [h]
  · rw [h]
  · rw [h]
    exact h

/-- An instance of `refreshCredit_no_deposit`: a zero balance. -/
theorem refreshCredit_no_deposit_witness :
    refreshCredit demoNoDeposit (some 21665) demoUser = (.ok demoUser.credit, demoUser) ∧
      (refreshCredit demoNoDeposit (some 21665) demoUser).2.credit = demoUser.credit ∧
      (refreshCredit demoNoDeposit (some 21665) demoUser).2.lastCreditCheckBalance
        = demoUser.lastCreditCheckBalance ∧
      refreshCredit demoNoDeposit (some 21665)
          (refreshCredit demoNoDeposit (some 21665) demoUser).2
        = refreshCredit demoNoDeposit (some 21665) demoUser :=
  refreshCredit_no_deposit demoNoDeposit (some 21665) demoUser 0 0 rfl (by decide)

/-- C15: when the balance observed exceeds `lastCreditCheckBalance` by
`delta > 0` and the price quoted is positive, `refreshCredit` adds exactly
`delta` times the price to the credit, sets `lastCreditCheckBalance` to the
balance observed and returns the new credit, which is greater than the credit
before; a second refresh with the same observation returns that same credit and
changes nothing: the deposit is credited once. -/
theorem refreshCredit_deposit (balanceOf : String → Option (Nat × Nat)) (user : User)
    (confirmed unconfirmed : Nat) (price : ℚ)
    (hb : balanceOf user.bchAddr = some (confirmed, unconfirmed))
    (hgt : user.lastCreditCheckBalance < confirmed + unconfirmed) (hpos : 0 < price) :
    (refreshCredit balanceOf (some price) user).1
        = .ok (user.credit +
            ((((confirmed + unconfirmed : Nat) : Int) - (user.lastCreditCheckBalance : Int)
              : Int) : ℚ) * price) ∧
      (refreshCredit balanceOf (some price) user).2.credit
        = user.credit +
            ((((confirmed + unconfirmed : Nat) : Int) - (user.lastCreditCheckBalance : Int)
              : Int) : ℚ) * price ∧
      (refreshCredit balanceOf (some price) user).2.lastCreditCheckBalance
        = confirmed + unconfirmed ∧
      user.credit < (refreshCredit balanceOf (some price) user).2.credit ∧
      refreshCredit balanceOf (some price) (refreshCredit balanceOf (some price) user).2
        = (.ok (refreshCredit balanceOf (some price) user).2.credit,
            (refreshCredit balanceOf (some price) user).2) := by
  have h := refreshCredit_of_lt balanceOf user confirmed unconfirmed price hb hgt hpos
  have hd : (0 : ℚ) < ((((confirmed + unconfirmed : Nat) : Int)
      - (user.lastCreditCheckBalance : Int) : Int) : ℚ) := by
    have : (0 : Int) < ((confirmed + unconfirmed : Nat) : Int)
        - (user.lastCreditCheckBalance : Int) := by omega
    exact_mod_cast this
  refine ⟨by rw [h], by rw [h], by rw [h], ?_, ?_⟩
  · rw [h]
    simp only
    have := mul_pos hd hpos
    linarith
  · rw [h]
    exact refreshCredit_of_le balanceOf (some price) _ confirmed unconfirmed hb (le_refl _)

/-- An instance of `refreshCredit_deposit`: the balance rises from 0 to
1000000 units at a price of 0.0002 per unit; the credit rises from 100 by
exactly 200, and only once. -/
theorem refreshCredit_deposit_witness :
    demoUser.credit = 100 ∧
      (refreshCredit demoDeposit (some (2 / 10000)) demoUser).2.credit = 100 + 200 ∧
      (refreshCredit demoDeposit (some (2 / 10000)) demoUser).2.lastCreditCheckBalance
        = 1000000 ∧
      refreshCredit demoDeposit (some (2 / 10000))
          (refreshCredit demoDeposit (some (2 / 10000)) demoUser).2
        = (.ok (refreshCredit demoDeposit (some (2 / 10000)) demoUser).2.credit,
            (refreshCredit demoDeposit (some (2 / 10000)) demoUser).2) :=
  ⟨rfl,
    ((refreshCredit_deposit demoDeposit demoUser 0 1000000 (2 / 10000) rfl (by decide)
      (by norm_num)).2.1).trans (by simp [demoUser]; norm_num),
    (refreshCredit_deposit demoDeposit demoUser 0 1000000 (2 / 10000) rfl (by decide)
      (by norm_num)).2.2.1,
    (refreshCredit_deposit demoDeposit demoUser 0 1000000 (2 / 10000) rfl (by decide)
      (by norm_num)).2.2.2.2⟩

end JwtBchApi
